import Mathlib

/-!
# Lifecycle of the alloyengine extension

Shallow embedding of `extension/alloyengine/extension.go`.

The extension record is embedded field by field.  Everything the Go code reaches
through pointers or the runtime is kept in a surrounding `World`: the channels made
by `make(chan struct{})`, the contexts made by `context.WithCancel`, the goroutines
launched by the `go` statement, the host threads blocked in the `select` of
`Shutdown`, and the lines written to the logger.

Every region guarded by `stateMutex` is one atomic step.  The blocking operations
(`cmd.Run()` and the `select` in `Shutdown`) are steps of their own, so that steps of
other threads can be placed between a critical section and the wait that follows it.
-/

namespace alloyengine

/-! ## Data model -/

/-- The Go type `state` is an `int`. -/
abbrev state := Int

def stateNotStarted : state := 0
def stateRunning : state := 1
def stateShuttingDown : state := 2
def stateTerminated : state := 3

/-- Method `func (s state) String() string`; the last branch is `fmt.Sprintf("unknown_state_%d", s)`. -/
def state.String (s : state) : String :=
  if s = stateNotStarted then "not_started"
  else if s = stateRunning then "running"
  else if s = stateShuttingDown then "shutting_down"
  else if s = stateTerminated then "terminated"
  else "unknown_state_" ++ toString s

/-- The part of `Config` that `Start` reads.  `flagsAsSlice` stands for the value returned by
the method `flagsAsSlice()`, whose body is declared outside the translated file. -/
structure Config where
  ConfigPath : String
  flagsAsSlice : List String
deriving DecidableEq, Repr

/-- Value built by `exec.CommandContext(runCtx, e.alloyPath, args...)`.  `ctx` is the index of
`runCtx` in `World.cancels`; `Args` starts with the program name, as `os/exec` stores it.
The standard streams and the environment are inherited from the host process. -/
structure Cmd where
  ctx : Nat
  Path : String
  Args : List String
deriving DecidableEq, Repr

/-- The struct `alloyEngineExtension`.  `runExited` is `none` for a nil channel and otherwise an
index into `World.chans`; `runCancel` is `none` for a nil `context.CancelFunc` and otherwise an
index into `World.cancels`.  The mutex is represented by the atomicity of the steps and the
telemetry settings by `World.logs`. -/
structure alloyEngineExtension where
  config : Config
  runExited : Option Nat
  alloyPath : String
  state : state
  runCancel : Option Nat
  runCmd : Option Cmd
deriving DecidableEq, Repr

inductive Level
  | debug
  | info
  | warn
  | error
deriving DecidableEq, Repr

/-- One call on `e.settings.Logger`: level, message and the zap fields. -/
structure LogEntry where
  level : Level
  msg : String
  fields : List (String × String)
deriving DecidableEq, Repr

/-- What `cmd.Run()` hands back to the exit watcher.  `startError` is the case where the
operating system could not launch the binary (missing file, permission denied), `waitError`
the case where a launched process ended with a non-zero status or by a signal. -/
inductive RunResult
  | exit0
  | startError (msg : String)
  | waitError (msg : String)
deriving DecidableEq, Repr

/-- The `err` value returned by `cmd.Run()`; `none` is nil. -/
def RunResult.err : RunResult → Option String
  | .exit0 => none
  | .startError msg => some msg
  | .waitError msg => some msg

/-- Control point of the goroutine launched at lines 97-113. -/
inductive WatcherPc
  /-- inside `cmd.Run()` -/
  | running
  /-- `cmd.Run()` has returned `err`; the goroutine is about to lock `stateMutex` -/
  | returned (err : Option String)
  /-- lines 101-104 are done; `previousState` holds the state read under the lock -/
  | unlocked (err : Option String) (previousState : state)
  /-- the classification has been logged; the deferred `close` is still pending -/
  | logged
  /-- the deferred `close(e.runExited)` has run -/
  | done
deriving DecidableEq, Repr

/-- One goroutine launched by `go func() ...`.  `cmd` is the captured local variable and
`runExited` the operand of `defer close(e.runExited)`. -/
structure Watcher where
  cmd : Cmd
  runExited : Option Nat
  pc : WatcherPc
deriving DecidableEq, Repr

/-- The extension together with the runtime objects it refers to.
* `chans`: one entry per channel ever made, `true` once it is closed;
* `cancels`: one entry per `context.WithCancel`, counting the calls of its cancel function;
* `watchers`: every goroutine ever launched by `Start`, hence every `cmd.Run()` ever issued;
* `waiting`: number of `Shutdown` callers that released the lock and sit in the `select`;
* `logs`: the logger output in order. -/
structure World where
  ext : alloyEngineExtension
  chans : List Bool
  cancels : List Nat
  watchers : List Watcher
  waiting : Nat
  logs : List LogEntry
deriving DecidableEq, Repr

/-- The function `newAlloyEngineExtension`; `found` is the result of `util.FindAlloyBinary()`. -/
def newAlloyEngineExtension (config : Config) (found : Except String String) :
    Except String alloyEngineExtension :=
  match found with
  | .error err => .error ("failed to find alloy binary: " ++ err)
  | .ok alloyPath =>
    .ok { config := config, runExited := none, alloyPath := alloyPath,
          state := stateNotStarted, runCancel := none, runCmd := none }

/-- World right after a successful `newAlloyEngineExtension config settings` that resolved the
binary to `alloyPath`. -/
def World.new (config : Config) (alloyPath : String) : World :=
  { ext := { config := config, runExited := none, alloyPath := alloyPath,
             state := stateNotStarted, runCancel := none, runCmd := none },
    chans := [], cancels := [], watchers := [], waiting := 0, logs := [] }

/-! ## Operations -/

/-- Method `Start` (lines 70-118).  The whole body runs with `stateMutex` held.  The second
component is the returned `error`, `none` for nil.  The goroutine is only registered here:
`cmd.Run()` is executed by the goroutine, not by `Start`. -/
def Start (w : World) : World × Option String :=
  if w.ext.state = stateNotStarted then
    let args := ["run", w.ext.config.ConfigPath] ++ w.ext.config.flagsAsSlice
    let runCancel := w.cancels.length
    let runExited := w.chans.length
    let cmd : Cmd := { ctx := runCancel, Path := w.ext.alloyPath, Args := w.ext.alloyPath :: args }
    ({ ext := { w.ext with
                  runCancel := some runCancel
                  runExited := some runExited
                  runCmd := some cmd
                  state := stateRunning }
       chans := w.chans ++ [false]
       cancels := w.cancels ++ [0]
       watchers := w.watchers ++ [{ cmd := cmd, runExited := some runExited, pc := .running }]
       waiting := w.waiting
       logs := w.logs ++ [⟨.info, "alloyengine extension started successfully", []⟩] },
     none)
  else
    (w, some ("cannot start alloyengine extension in current state: " ++ state.String w.ext.state))

/-- How the critical section of `Shutdown` ends: with a `return` (carrying the error value), or
with the lock released and the caller at the `select` of lines 132-137. -/
inductive ShutdownCont
  | returned (err : Option String)
  | select
deriving DecidableEq, Repr

/-- Method `Shutdown`, from `e.stateMutex.Lock()` to the `Unlock` of the branch taken
(lines 122-130, 139-142, 143-146).  Calling a nil `runCancel` panics, which is the
`Except.error` result. -/
def ShutdownLocked (w : World) : Except String (World × ShutdownCont) :=
  if w.ext.state = stateRunning then
    match w.ext.runCancel with
    | none => .error "invalid memory address or nil pointer dereference"
    | some c =>
      .ok ({ w with
               ext := { w.ext with state := stateShuttingDown }
               cancels := w.cancels.set c (w.cancels.getD c 0 + 1)
               logs := w.logs ++ [⟨.info, "alloyengine extension shutting down", []⟩] },
           .select)
  else if w.ext.state = stateNotStarted then
    .ok ({ w with
             logs := w.logs ++ [⟨.info, "alloyengine extension shutdown completed (not started)", []⟩] },
         .returned none)
  else
    .ok ({ w with
             logs := w.logs ++ [⟨.warn, "alloyengine extension shutdown in current state is a no-op",
                                 [("state", state.String w.ext.state)]⟩] },
         .returned none)

/-- The two communications of the `select` in `Shutdown`. -/
inductive SelectCase
  /-- `case <-e.runExited` -/
  | runExited
  /-- `case <-ctx.Done()`, with the text of `ctx.Err()` -/
  | ctxDone (ctxErr : String)
deriving DecidableEq, Repr

/-- Whether a communication of the `select` can proceed: a receive on `e.runExited` proceeds once
the channel is closed (nothing is ever sent on it, and a nil channel blocks forever); the
context of the caller may be done at any moment. -/
def selectReady (w : World) : SelectCase → Bool
  | .runExited =>
    match w.ext.runExited with
    | none => false
    | some ch => w.chans.getD ch false
  | .ctxDone _ => true

/-- Method `Shutdown`, lines 132-138: the body of the chosen `select` case and `return nil`. -/
def ShutdownSelect (w : World) : SelectCase → World × Option String
  | .runExited =>
    ({ w with logs := w.logs ++ [⟨.info, "alloyengine extension shut down successfully", []⟩] }, none)
  | .ctxDone ctxErr =>
    ({ w with logs := w.logs ++ [⟨.warn, "alloyengine extension shutdown interrupted by context",
                                  [("error", ctxErr)]⟩] }, none)

/-- Method `Ready` (lines 151-161). -/
def Ready (w : World) : World × Option String :=
  if w.ext.state = stateRunning then (w, none)
  else (w, some ("alloyengine extension not ready in current state: " ++ state.String w.ext.state))

/-- Method `NotReady` (lines 164-174). -/
def NotReady (w : World) : World × Option String :=
  if w.ext.state = stateRunning then (w, none)
  else (w, some ("alloyengine extension not ready in current state: " ++ state.String w.ext.state))

/-- Lines 101-104 of the goroutine: under the lock, remember the state and store
`stateTerminated`.  Returns the new extension record and `previousState`. -/
def watcherCritical (e : alloyEngineExtension) : alloyEngineExtension × state :=
  ({ e with state := stateTerminated }, e.state)

/-- Lines 106-112 of the goroutine: the log line chosen from `err` and `previousState`. -/
def watcherLogEntry (err : Option String) (previousState : state) : LogEntry :=
  match err with
  | none => ⟨.debug, "run command exited successfully without error", []⟩
  | some msg =>
    if previousState = stateShuttingDown then
      ⟨.warn, "run command exited with an error during shutdown", [("error", msg)]⟩
    else
      ⟨.error, "run command exited unexpectedly with an error", [("error", msg)]⟩

/-- The builtin `close` applied to a channel value: closing a nil channel and closing a closed
channel both panic. -/
def closeChan (chans : List Bool) : Option Nat → Except String (List Bool)
  | none => .error "close of nil channel"
  | some ch =>
    match chans[ch]? with
    | none => .error "close of nil channel"
    | some true => .error "close of closed channel"
    | some false => .ok (chans.set ch true)

/-! ## Interleavings -/

/-- The atomic steps of the system.  Host threads contribute `start`, `shutdown` (the critical
section of a `Shutdown` call), `shutdownSelect` (a blocked `Shutdown` caller leaves the
`select`), `ready` and `notReady`.  Goroutine `i` contributes `runReturns` (its `cmd.Run()`
returns), `watcherLock` (lines 101-104), `watcherLog` (lines 106-112) and `watcherClose` (the
deferred `close`). -/
inductive Event
  | start
  | shutdown
  | shutdownSelect (c : SelectCase)
  | ready
  | notReady
  | runReturns (i : Nat) (r : RunResult)
  | watcherLock (i : Nat)
  | watcherLog (i : Nat)
  | watcherClose (i : Nat)
deriving DecidableEq, Repr

/-- One step.  An event that cannot occur in `w` (no such goroutine, goroutine at another control
point, nobody blocked in the `select`, `select` case not ready) leaves `w` as it is.  A Go panic
is `Except.error`. -/
def step (w : World) : Event → Except String World
  | .start => .ok (Start w).1
  | .shutdown =>
    match ShutdownLocked w with
    | .error p => .error p
    | .ok (w1, .returned _) => .ok w1
    | .ok (w1, .select) => .ok { w1 with waiting := w1.waiting + 1 }
  | .shutdownSelect c =>
    match w.waiting, selectReady w c with
    | k + 1, true => .ok { (ShutdownSelect w c).1 with waiting := k }
    | _, _ => .ok w
  | .ready => .ok (Ready w).1
  | .notReady => .ok (NotReady w).1
  | .runReturns i r =>
    match w.watchers[i]? with
    | some ⟨cmd, ch, .running⟩ =>
      .ok { w with watchers := w.watchers.set i ⟨cmd, ch, .returned r.err⟩ }
    | _ => .ok w
  | .watcherLock i =>
    match w.watchers[i]? with
    | some ⟨cmd, ch, .returned err⟩ =>
      .ok { w with
              ext := (watcherCritical w.ext).1
              watchers := w.watchers.set i ⟨cmd, ch, .unlocked err (watcherCritical w.ext).2⟩ }
    | _ => .ok w
  | .watcherLog i =>
    match w.watchers[i]? with
    | some ⟨cmd, ch, .unlocked err previousState⟩ =>
      .ok { w with
              watchers := w.watchers.set i ⟨cmd, ch, .logged⟩
              logs := w.logs ++ [watcherLogEntry err previousState] }
    | _ => .ok w
  | .watcherClose i =>
    match w.watchers[i]? with
    | some ⟨cmd, ch, .logged⟩ =>
      match closeChan w.chans ch with
      | .error p => .error p
      | .ok chans => .ok { w with chans := chans, watchers := w.watchers.set i ⟨cmd, ch, .done⟩ }
    | _ => .ok w

/-- Runs a sequence of events from `w`, stopping at the first panic. -/
def run (w : World) : List Event → Except String World
  | [] => .ok w
  | ev :: evs =>
    match step w ev with
    | .error p => .error p
    | .ok w1 => run w1 evs

/-- The legal edges of the lifecycle as listed in the data model of the specification. -/
def legalEdge (a b : state) : Prop :=
  (a = stateNotStarted ∧ b = stateRunning) ∨
  (a = stateRunning ∧ b = stateShuttingDown) ∨
  (a = stateRunning ∧ b = stateTerminated) ∨
  (a = stateShuttingDown ∧ b = stateTerminated)

instance (a b : state) : Decidable (legalEdge a b) := by
  unfold legalEdge
  infer_instance

/-- A sample configuration on which the statements below are evaluated. -/
def demoConfig : Config := ⟨"config.alloy", ["--stability.level=experimental"]⟩

/-- The world right after constructing the extension for `demoConfig`. -/
def demoWorld : World := World.new demoConfig "/usr/bin/alloy"

/-- The world reached from `demoWorld` by `evs`; `demoWorld` itself if the run panics. -/
def demoRun (evs : List Event) : World :=
  match run demoWorld evs with
  | .ok w => w
  | .error _ => demoWorld

/-! ## Reachable worlds -/

/-- Relation between the control point of the only goroutine, the lifecycle state, the number
`n` of calls of the cancel function and the closed flag `b` of the completion channel. -/
def PcOk (s : state) (n : Nat) (b : Bool) : WatcherPc → Prop
  | .running => ((s = stateRunning ∧ n = 0) ∨ (s = stateShuttingDown ∧ n = 1)) ∧ b = false
  | .returned _ => ((s = stateRunning ∧ n = 0) ∨ (s = stateShuttingDown ∧ n = 1)) ∧ b = false
  | .unlocked _ prev =>
    s = stateTerminated ∧ b = false ∧
      ((prev = stateRunning ∧ n = 0) ∨ (prev = stateShuttingDown ∧ n = 1))
  | .logged => s = stateTerminated ∧ (n = 0 ∨ n = 1) ∧ b = false
  | .done => s = stateTerminated ∧ (n = 0 ∨ n = 1) ∧ b = true

/-- Invariant of the interleavings: either nothing has been started, or exactly one context, one
channel and one goroutine exist and the extension points at them. -/
inductive Inv : World → Prop
  | fresh (config : Config) (path : String) (logs : List LogEntry) :
    Inv ⟨⟨config, none, path, stateNotStarted, none, none⟩, [], [], [], 0, logs⟩
  | started (config : Config) (path : String) (logs : List LogEntry) (cmd : Cmd)
      (st : state) (n : Nat) (b : Bool) (pc : WatcherPc) (waiting : Nat)
      (hw : waiting ≤ n) (hpc : PcOk st n b pc) :
    Inv ⟨⟨config, some 0, path, st, some 0, some cmd⟩, [b], [n], [⟨cmd, some 0, pc⟩], waiting, logs⟩

/-- What a single step may do to the lifecycle state and to the counters of the runtime: the
state stays or follows a legal edge, no goroutine disappears, no call of a cancel function is
forgotten. -/
def StepOk (w w1 : World) : Prop :=
  (w1.ext.state = w.ext.state ∨ legalEdge w.ext.state w1.ext.state) ∧
  w.watchers.length ≤ w1.watchers.length ∧
  w.cancels.sum ≤ w1.cancels.sum

/-! ## The mutex made explicit

The steps above treat every region between `Lock` and `Unlock` as atomic.  The model below keeps
the same worlds and the same effects, and adds the owner of `stateMutex` and the control point
of every host thread, so that acquiring the mutex, running the critical section and waiting
are separate steps. -/

/-- The four methods a host thread can execute. -/
inductive Call
  | start
  | shutdown
  | ready
  | notReady
deriving DecidableEq, Repr

/-- Control point of a host thread inside a method. -/
inductive CallPc
  /-- at `e.stateMutex.Lock()`, the mutex not yet acquired -/
  | atLock
  /-- the mutex is held, the critical section has not run yet -/
  | locked
  /-- only in `Shutdown`: the mutex was released at line 130, the thread is in the `select` -/
  | atSelect
  /-- the method has returned `err` -/
  | returned (err : Option String)
deriving DecidableEq, Repr

/-- A host thread: the method it executes and where it is. -/
structure HostThread where
  call : Call
  pc : CallPc
deriving DecidableEq, Repr

/-- Owner of `stateMutex`: host thread `t` or goroutine `i`. -/
inductive Holder
  | host (t : Nat)
  | watcher (i : Nat)
deriving DecidableEq, Repr

/-- A world together with the owner of the mutex and the host threads. -/
structure LockWorld where
  world : World
  mutex : Option Holder
  threads : List HostThread
deriving DecidableEq, Repr

/-- The state before any call: a newly constructed extension, the mutex free, no thread. -/
def LockWorld.new (config : Config) (alloyPath : String) : LockWorld :=
  { world := World.new config alloyPath, mutex := none, threads := [] }

/-- The steps of the model with the mutex.
* `call c`: a host thread enters method `c` and arrives at `Lock()`;
* `acquire t`: the `Lock()` of host thread `t` succeeds;
* `critical t`: host thread `t` runs the statements up to its `Unlock()` (in `Start`, `Ready`
  and `NotReady` the deferred unlock at the return; in `Shutdown` line 130, 141 or 145);
* `select t c`: host thread `t`, blocked in the `select` of `Shutdown`, takes case `c`;
* `runReturns i r`: `cmd.Run()` of goroutine `i` returns;
* `watcherAcquire i`: the `Lock()` of goroutine `i` at line 101 succeeds;
* `watcherCritical i`: goroutine `i` runs lines 102-104;
* `watcherLog i`, `watcherClose i`: the log line and the deferred `close`. -/
inductive LockEvent
  | call (c : Call)
  | acquire (t : Nat)
  | critical (t : Nat)
  | select (t : Nat) (c : SelectCase)
  | runReturns (i : Nat) (r : RunResult)
  | watcherAcquire (i : Nat)
  | watcherCritical (i : Nat)
  | watcherLog (i : Nat)
  | watcherClose (i : Nat)
deriving DecidableEq, Repr

/-- The critical section of a method as an event of `step`. -/
def criticalEvent : Call → Event
  | .start => .start
  | .shutdown => .shutdown
  | .ready => .ready
  | .notReady => .notReady

/-- Where a host thread is after its critical section: `Start`, `Ready` and `NotReady` have
returned; `Shutdown` has returned or sits in the `select`. -/
def afterCritical (w : World) : Call → CallPc
  | .start => .returned (Start w).2
  | .shutdown =>
    match ShutdownLocked w with
    | .ok (_, .select) => .atSelect
    | .ok (_, .returned err) => .returned err
    | .error _ => .locked
  | .ready => .returned (Ready w).2
  | .notReady => .returned (NotReady w).2

/-- One step of the model with the mutex.  A step that cannot occur leaves everything as it
is: `Lock()` succeeds only while the mutex is free, a critical section runs only in the thread
that owns the mutex, a `select` case is taken only when it is ready. -/
def lstep (lw : LockWorld) : LockEvent → Except String LockWorld
  | .call c => .ok { lw with threads := lw.threads ++ [⟨c, .atLock⟩] }
  | .acquire t =>
    match lw.mutex, lw.threads[t]? with
    | none, some ⟨c, .atLock⟩ =>
      .ok { lw with mutex := some (.host t), threads := lw.threads.set t ⟨c, .locked⟩ }
    | _, _ => .ok lw
  | .critical t =>
    match lw.threads[t]? with
    | some ⟨c, .locked⟩ =>
      if lw.mutex = some (.host t) then
        match step lw.world (criticalEvent c) with
        | .error p => .error p
        | .ok w1 =>
          .ok { world := w1, mutex := none,
                threads := lw.threads.set t ⟨c, afterCritical lw.world c⟩ }
      else .ok lw
    | _ => .ok lw
  | .select t c =>
    match lw.threads[t]? with
    | some ⟨.shutdown, .atSelect⟩ =>
      if selectReady lw.world c = true then
        match step lw.world (.shutdownSelect c) with
        | .error p => .error p
        | .ok w1 =>
          .ok { lw with
                  world := w1
                  threads := lw.threads.set t
                    ⟨.shutdown, .returned (ShutdownSelect lw.world c).2⟩ }
      else .ok lw
    | _ => .ok lw
  | .runReturns i r =>
    match step lw.world (.runReturns i r) with
    | .error p => .error p
    | .ok w1 => .ok { lw with world := w1 }
  | .watcherAcquire i =>
    match lw.mutex, lw.world.watchers[i]? with
    | none, some ⟨_, _, .returned _⟩ => .ok { lw with mutex := some (.watcher i) }
    | _, _ => .ok lw
  | .watcherCritical i =>
    if lw.mutex = some (.watcher i) then
      match step lw.world (.watcherLock i) with
      | .error p => .error p
      | .ok w1 => .ok { lw with world := w1, mutex := none }
    else .ok lw
  | .watcherLog i =>
    match step lw.world (.watcherLog i) with
    | .error p => .error p
    | .ok w1 => .ok { lw with world := w1 }
  | .watcherClose i =>
    match step lw.world (.watcherClose i) with
    | .error p => .error p
    | .ok w1 => .ok { lw with world := w1 }

/-- Runs a sequence of steps of the model with the mutex, stopping at the first panic. -/
def lrun (lw : LockWorld) : List LockEvent → Except String LockWorld
  | [] => .ok lw
  | ev :: evs =>
    match lstep lw ev with
    | .error p => .error p
    | .ok lw1 => lrun lw1 evs

/-- The step by which the owner of the mutex releases it. -/
def releaseEvent : Holder → LockEvent
  | .host t => .critical t
  | .watcher i => .watcherCritical i

/-- The owner of the mutex is inside a critical section: a host thread that has acquired the
mutex and not yet run its critical section, or a goroutine whose `cmd.Run()` has returned. -/
def HolderOk (lw : LockWorld) : Prop :=
  (∀ t, lw.mutex = some (.host t) → ∃ c, lw.threads[t]? = some ⟨c, .locked⟩) ∧
  (∀ i, lw.mutex = some (.watcher i) →
    ∃ cmd ch err, lw.world.watchers[i]? = some ⟨cmd, ch, .returned err⟩)

/-- The sample world with the mutex, run through `evs`. -/
def demoLockRun (evs : List LockEvent) : LockWorld :=
  match lrun (LockWorld.new demoConfig "/usr/bin/alloy") evs with
  | .ok lw => lw
  | .error _ => LockWorld.new demoConfig "/usr/bin/alloy"

end alloyengine

/-! # The generator of replace directives

Shallow embedding of `collector/generator/generate_replaces.go`.  A Go `string` is embedded as a
`String`; the functions of package `strings` are defined on its list of characters. -/

namespace generator

/-- The struct `Replace`: a single `replace` directive of a go.mod file. -/
structure Replace where
  From : String
  To : String
deriving DecidableEq, Repr

/-- The library function `strings.HasPrefix(s, pre)`: `s` begins with `pre`. -/
def strings.HasPrefix (s pre : String) : Bool :=
  pre.data.isPrefixOf s.data

/-- The `for _, r := range replaces` loop of `filterReplaces` (lines 145-155); `filtered` is the
slice built so far, the two `continue` statements skip the `append`. -/
def filterReplaces.loop (filtered : List Replace) : List Replace → List Replace
  | [] => filtered
  | r :: rest =>
    if strings.HasPrefix r.To "./" || strings.HasPrefix r.To "../" then
      filterReplaces.loop filtered rest
    else if r.From = "github.com/grafana/alloy/syntax" then
      filterReplaces.loop filtered rest
    else
      filterReplaces.loop (filtered ++ [r]) rest

/-- The function `filterReplaces` (lines 143-157). -/
def filterReplaces (replaces : List Replace) : List Replace :=
  filterReplaces.loop [] replaces

/-- The entries `filterReplaces` is meant to keep: `To` is not a local path and `From` is not
the syntax module. -/
def kept (r : Replace) : Bool :=
  !(strings.HasPrefix r.To "./") && !(strings.HasPrefix r.To "../") &&
    decide (r.From ≠ "github.com/grafana/alloy/syntax")

/-! ## Library functions of Go used by the tools

The functions of `unicode` and `strings` are embedded on the list of characters of a string; an
offset into a string is a number of characters.  For the separators and markers of the tools,
which are ASCII, this agrees with the byte offsets of Go on every valid UTF-8 string. -/

/-- The library function `unicode.IsSpace`: the white space characters of Unicode. -/
def unicode.IsSpace (c : Char) : Bool :=
  c.toNat == 0x09 || c.toNat == 0x0A || c.toNat == 0x0B || c.toNat == 0x0C ||
  c.toNat == 0x0D || c.toNat == 0x20 || c.toNat == 0x85 || c.toNat == 0xA0 ||
  c.toNat == 0x1680 || (decide (0x2000 ≤ c.toNat) && decide (c.toNat ≤ 0x200A)) ||
  c.toNat == 0x2028 || c.toNat == 0x2029 || c.toNat == 0x202F || c.toNat == 0x205F ||
  c.toNat == 0x3000

/-- The library function `strings.TrimSpace`: all leading and trailing white space removed. -/
def strings.TrimSpace (s : String) : String :=
  ⟨(s.data.dropWhile unicode.IsSpace).rdropWhile unicode.IsSpace⟩

/-- Offset of the first occurrence of `sep` in a list of characters. -/
def strings.indexL (sep : List Char) : List Char → Option Nat
  | [] => if sep = [] then some 0 else none
  | c :: cs =>
    if sep.isPrefixOf (c :: cs) then some 0 else (strings.indexL sep cs).map (· + 1)

/-- The library function `strings.Index`: offset of the first occurrence of `substr` in `s`,
or `-1` when there is none. -/
def strings.Index (s substr : String) : Int :=
  match strings.indexL substr.data s.data with
  | some i => i
  | none => -1

/-- The library function `strings.Contains`, which is `Index(s, substr) >= 0`. -/
def strings.Contains (s substr : String) : Bool :=
  decide (strings.Index s substr ≥ 0)

/-- Pieces of a list of characters between the occurrences of a non-empty `sep`, found from the
left.  `skip` counts the characters of an occurrence that are still to be passed; the head of
the result is the piece under construction. -/
def strings.splitL (sep : List Char) : Nat → List Char → List (List Char)
  | _, [] => [[]]
  | skip + 1, _ :: cs => strings.splitL sep skip cs
  | 0, c :: cs =>
    if sep.isPrefixOf (c :: cs) then [] :: strings.splitL sep (sep.length - 1) cs
    else (strings.splitL sep 0 cs).modifyHead (c :: ·)

/-- The library function `strings.Split(s, sep)` for a non-empty `sep`: the substrings of `s`
between the occurrences of `sep`. -/
def strings.Split (s sep : String) : List String :=
  (strings.splitL sep.data 0 s.data).map String.mk

/-- The library function `strings.Join(elems, sep)`. -/
def strings.Join (elems : List String) (sep : String) : String :=
  ⟨sep.data.intercalate (elems.map String.data)⟩

/-- The function `cleanComment` (lines 135-140): the part before the first `//`, trimmed. -/
def cleanComment (s : String) : String :=
  let idx := strings.Index s "//"
  let s1 : String := if idx ≥ 0 then ⟨s.data.take idx.toNat⟩ else s
  strings.TrimSpace s1

/-- The loop of `parseReplaceBlock` (lines 116-130); `replaces` is the slice built so far. -/
def parseReplaceBlock.loop (replaces : List Replace) : List String → List Replace
  | [] => replaces
  | line :: rest =>
    let line := strings.TrimSpace line
    if line = "" || strings.HasPrefix line "//" then
      parseReplaceBlock.loop replaces rest
    else
      match strings.Split line "=>" with
      | [part0, part1] =>
        parseReplaceBlock.loop
          (replaces ++ [{ From := cleanComment part0, To := cleanComment part1 }]) rest
      | _ => parseReplaceBlock.loop replaces rest

/-- The function `parseReplaceBlock` (lines 114-132). -/
def parseReplaceBlock (lines : List String) : List Replace :=
  parseReplaceBlock.loop [] lines

/-! ## Rewriting the replace section of a go.mod file -/

/-- The function `isTopLevelDirective` (lines 277-282). -/
def isTopLevelDirective (line : String) : Bool :=
  strings.HasPrefix line "module " || strings.HasPrefix line "require " ||
    strings.HasPrefix line "exclude " || strings.HasPrefix line "go "

/-- The inner loop of `findGoModReplaceSectionEnd` (lines 259-268), run on `lines[j:]`: `true`
when it leaves by `return i`, `false` when it leaves by `break` or runs to the end. -/
def findGoModReplaceSectionEnd.inner : List String → Bool
  | [] => false
  | l :: rest =>
    let nextLine := strings.TrimSpace l
    if nextLine = "" then findGoModReplaceSectionEnd.inner rest
    else isTopLevelDirective nextLine

/-- The outer loop of `findGoModReplaceSectionEnd` (lines 254-273), run on `lines[i:]`; the
result for the empty slice is `len(lines)`. -/
def findGoModReplaceSectionEnd.loop : Nat → List String → Nat
  | i, [] => i
  | i, l :: rest =>
    let line := strings.TrimSpace l
    if line = "" then
      if findGoModReplaceSectionEnd.inner rest then i
      else findGoModReplaceSectionEnd.loop (i + 1) rest
    else if isTopLevelDirective line then i
    else findGoModReplaceSectionEnd.loop (i + 1) rest

/-- The function `findGoModReplaceSectionEnd` (lines 253-274).  `startIdx` is the index of the
marker line, a natural number. -/
def findGoModReplaceSectionEnd (lines : List String) (startIdx : Nat) : Nat :=
  findGoModReplaceSectionEnd.loop (startIdx + 1) (lines.drop (startIdx + 1))

/-- The loop of `findLineIndex` (lines 232-236) run on `lines[i:]`. -/
def findLineIndex.loop (substr : String) : Nat → List String → Int
  | _, [] => -1
  | i, line :: rest =>
    if strings.Contains line substr then i else findLineIndex.loop substr (i + 1) rest

/-- The function `findLineIndex` (lines 231-238). -/
def findLineIndex (lines : List String) (substr : String) : Int :=
  findLineIndex.loop substr 0 lines

/-- The constant `marker` of `updateGoMod`. -/
def marker : String := "// Replace directives copied from main go.mod of Alloy"

/-- The function `updateGoMod` (lines 195-228) without the file system: `data` is the content
read from `goModPath` and the result is the content written back, or the returned error. -/
def updateGoMod (goModPath : String) (data : String) (replaces : List Replace) :
    Except String String :=
  let lines := strings.Split data "\n"
  let startIdx := findLineIndex lines marker
  if startIdx = -1 then
    .error ("marker '" ++ marker ++ "' not found in " ++ goModPath)
  else
    let endIdx := findGoModReplaceSectionEnd lines startIdx.toNat
    let newContent := lines.take (startIdx.toNat + 1) ++ [""] ++
      replaces.map (fun r => "replace " ++ r.From ++ " => " ++ r.To) ++ lines.drop endIdx
    .ok (strings.Join newContent "\n")

/-- What one line of a replace block contributes, in the words of the description of
`parseReplaceBlock`: nothing when the trimmed line is empty, begins with `//` or does not split
on `=>` into exactly two parts; otherwise one entry whose `From` and `To` are the two parts,
each cleaned by `cleanComment`. -/
def parsedEntry (line : String) : Option Replace :=
  let t := strings.TrimSpace line
  if t = "" || strings.HasPrefix t "//" then none
  else
    match strings.Split t "=>" with
    | [part0, part1] => some { From := cleanComment part0, To := cleanComment part1 }
    | _ => none

/-- The first line of `ls` that is not blank, where blank means empty after trimming. -/
def firstNonBlank (ls : List String) : Option String :=
  ls.find? (fun l => decide (strings.TrimSpace l ≠ ""))

/-- The condition under which the replace section is described to end at line `i`: the trimmed
line `i` is a top-level directive, or line `i` is blank and the first non-blank line after it
is a top-level directive.  There is no such line beyond the end of `lines`. -/
def sectionEndsAt (lines : List String) (i : Nat) : Bool :=
  match lines.drop i with
  | [] => false
  | l :: rest =>
    isTopLevelDirective (strings.TrimSpace l) ||
      (decide (strings.TrimSpace l = "") &&
        match firstNonBlank rest with
        | some x => isTopLevelDirective (strings.TrimSpace x)
        | none => false)

end generator

/-! # Applying generated replaces

Shallow embedding of `tools/sync-module-dependencies/internal/apply-replaces.go`; the functions
`removeBetweenMarkers` and `hasMarkers` of `tools/sync-module-dependencies/apply-replaces.go`
have the same statements apart from a logged warning.  A `bufio.Scanner` over a string is
embedded as the list of the tokens it delivers: the lines up to the first one that does not fit
its buffer, where `Scan` returns false. -/

namespace applyreplaces

open generator

/-- The helper `dropCR` of `bufio.ScanLines`: one trailing carriage return removed. -/
def dropCR (data : List Char) : List Char :=
  if data.getLast? = some '\r' then data.dropLast else data

/-- The tokens of `bufio.ScanLines` before `dropCR`: the text up to each newline, and the text
after the last newline when it is not empty. -/
def scanLinesL : List Char → List (List Char)
  | [] => []
  | c :: cs =>
    if c = '\n' then [] :: scanLinesL cs
    else
      match scanLinesL cs with
      | [] => [[c]]
      | l :: ls => (c :: l) :: ls

/-- The constant `bufio.MaxScanTokenSize`, the largest size the buffer of a scanner made by
`bufio.NewScanner` grows to. -/
def bufio.MaxScanTokenSize : Nat := 64 * 1024

/-- The length in bytes of a piece of text, as `len` of a Go string gives it. -/
def byteLen (l : List Char) : Nat :=
  (l.map Char.utf8Size).sum

/-- The successive values of `scanner.Text()` for
`bufio.NewScanner(strings.NewReader(content))`.  `Scan` delivers a line that is shorter than
`bufio.MaxScanTokenSize` bytes: the buffer, which grows to that size at most, has to hold the
line and one more byte (its newline, or room to read on to the end of the input).  At the first
line that is not, `Scan` returns false with `ErrTooLong` and the `for scanner.Scan()` loops
end. -/
def scanLines (content : String) : List String :=
  ((scanLinesL content.data).takeWhile
    (fun l => decide (byteLen l < bufio.MaxScanTokenSize))).map (fun l => ⟨dropCR l⟩)

/-- Every line of the text is shorter than `bufio.MaxScanTokenSize` bytes. -/
def ShortLines (content : String) : Prop :=
  ∀ l ∈ scanLinesL content.data, byteLen l < bufio.MaxScanTokenSize

instance ShortLines.decidable (content : String) : Decidable (ShortLines content) :=
  inferInstanceAs (Decidable (∀ l ∈ scanLinesL content.data, byteLen l < bufio.MaxScanTokenSize))

/-- The loop of `hasMarkers` (lines 89-97) over the remaining lines. -/
def hasMarkers.loop (startMarkerTrimmed endMarkerTrimmed : String) :
    Bool → Bool → List String → Bool
  | hasStart, hasEnd, [] => hasStart && hasEnd
  | hasStart, hasEnd, text :: rest =>
    let trimmedLine := strings.TrimSpace text
    let hasStart1 := if strings.HasPrefix trimmedLine startMarkerTrimmed then true else hasStart
    let hasEnd1 := if trimmedLine = endMarkerTrimmed then true else hasEnd
    hasMarkers.loop startMarkerTrimmed endMarkerTrimmed hasStart1 hasEnd1 rest

/-- The function `hasMarkers` (lines 81-100). -/
def hasMarkers (content startMarker endMarker : String) : Bool :=
  hasMarkers.loop (strings.TrimSpace startMarker) (strings.TrimSpace endMarker) false false
    (scanLines content)

/-- The loop of `removeBetweenMarkers` (lines 110-128) over the remaining lines; `result` is
the content of the `strings.Builder`. -/
def removeBetweenMarkers.loop (startMarkerTrimmed endMarkerTrimmed : String) :
    Bool → String → List String → String
  | _, result, [] => result
  | inMarkerBlock, result, line :: rest =>
    let trimmedLine := strings.TrimSpace line
    if !inMarkerBlock && strings.HasPrefix trimmedLine startMarkerTrimmed then
      removeBetweenMarkers.loop startMarkerTrimmed endMarkerTrimmed true result rest
    else if inMarkerBlock && decide (trimmedLine = endMarkerTrimmed) then
      removeBetweenMarkers.loop startMarkerTrimmed endMarkerTrimmed false result rest
    else if !inMarkerBlock then
      removeBetweenMarkers.loop startMarkerTrimmed endMarkerTrimmed inMarkerBlock
        (result ++ line ++ "\n") rest
    else
      removeBetweenMarkers.loop startMarkerTrimmed endMarkerTrimmed inMarkerBlock result rest

/-- The function `removeBetweenMarkers` (lines 102-131). -/
def removeBetweenMarkers (content startMarker endMarker : String) : String :=
  removeBetweenMarkers.loop (strings.TrimSpace startMarker) (strings.TrimSpace endMarker)
    false "" (scanLines content)

end applyreplaces

namespace alloyengine

theorem new_ext (config : Config) (alloyPath : String) :
    newAlloyEngineExtension config (.ok alloyPath) = .ok (World.new config alloyPath).ext := rfl

theorem new_inv (config : Config) (alloyPath : String) : Inv (World.new config alloyPath) :=
  Inv.fresh config alloyPath []

theorem step_inv_start (w : World) (h : Inv w) :
    ∃ w1, step w (.start) = .ok w1 ∧ Inv w1 ∧ StepOk w w1 := by
  cases h with
  | fresh config path logs =>
    exact ⟨_, rfl, Inv.started _ _ _ _ _ _ _ _ _ (le_refl 0) (by simp [PcOk]),
      (by simp [StepOk, legalEdge, Start, ShutdownLocked, ShutdownSelect, Ready, NotReady,
          watcherCritical, stateNotStarted, stateRunning, stateShuttingDown, stateTerminated])⟩
  | started config path logs cmd st n b pc waiting hw hpc =>
    cases pc <;> simp only [PcOk] at hpc <;> casesm* _ ∧ _, _ ∨ _ <;> subst_vars <;>
      exact ⟨_, rfl, Inv.started _ _ _ _ _ _ _ _ _ (by omega)
        (by simp [PcOk, watcherCritical]),
        (by simp [StepOk, legalEdge, Start, ShutdownLocked, ShutdownSelect, Ready, NotReady,
          watcherCritical, stateNotStarted, stateRunning, stateShuttingDown, stateTerminated])⟩

theorem step_inv_shutdown (w : World) (h : Inv w) :
    ∃ w1, step w (.shutdown) = .ok w1 ∧ Inv w1 ∧ StepOk w w1 := by
  cases h with
  | fresh config path logs =>
    exact ⟨_, rfl, Inv.fresh _ _ _,
      (by simp [StepOk, legalEdge, Start, ShutdownLocked, ShutdownSelect, Ready, NotReady,
          watcherCritical, stateNotStarted, stateRunning, stateShuttingDown, stateTerminated])⟩
  | started config path logs cmd st n b pc waiting hw hpc =>
    cases pc <;> simp only [PcOk] at hpc <;> casesm* _ ∧ _, _ ∨ _ <;> subst_vars <;>
      exact ⟨_, rfl, Inv.started _ _ _ _ _ _ _ _ _ (by first | omega | (simp; omega))
        (by simp [PcOk, watcherCritical]),
        (by simp [StepOk, legalEdge, Start, ShutdownLocked, ShutdownSelect, Ready, NotReady,
          watcherCritical, stateNotStarted, stateRunning, stateShuttingDown, stateTerminated])⟩

theorem step_inv_shutdownSelect (w : World) (c : SelectCase) (h : Inv w) :
    ∃ w1, step w (.shutdownSelect c) = .ok w1 ∧ Inv w1 ∧ StepOk w w1 := by
  cases h with
  | fresh config path logs =>
    cases c <;> exact ⟨_, rfl, Inv.fresh _ _ _,
      (by simp [StepOk, legalEdge, Start, ShutdownLocked, ShutdownSelect, Ready, NotReady,
          watcherCritical, stateNotStarted, stateRunning, stateShuttingDown, stateTerminated])⟩
  | started config path logs cmd st n b pc waiting hw hpc =>
    cases c <;> rcases waiting with _ | waiting <;> cases pc <;> simp only [PcOk] at hpc <;> casesm* _ ∧ _, _ ∨ _ <;> subst_vars <;>
      exact ⟨_, rfl, Inv.started _ _ _ _ _ _ _ _ _ (by omega)
        (by simp [PcOk, watcherCritical]),
        (by simp [StepOk, legalEdge, Start, ShutdownLocked, ShutdownSelect, Ready, NotReady,
          watcherCritical, stateNotStarted, stateRunning, stateShuttingDown, stateTerminated])⟩

theorem step_inv_ready (w : World) (h : Inv w) :
    ∃ w1, step w (.ready) = .ok w1 ∧ Inv w1 ∧ StepOk w w1 := by
  cases h with
  | fresh config path logs =>
    exact ⟨_, rfl, Inv.fresh _ _ _,
      (by simp [StepOk, legalEdge, Start, ShutdownLocked, ShutdownSelect, Ready, NotReady,
          watcherCritical, stateNotStarted, stateRunning, stateShuttingDown, stateTerminated])⟩
  | started config path logs cmd st n b pc waiting hw hpc =>
    cases pc <;> simp only [PcOk] at hpc <;> casesm* _ ∧ _, _ ∨ _ <;> subst_vars <;>
      exact ⟨_, rfl, Inv.started _ _ _ _ _ _ _ _ _ (by omega)
        (by simp [PcOk, watcherCritical]),
        (by simp [StepOk, legalEdge, Start, ShutdownLocked, ShutdownSelect, Ready, NotReady,
          watcherCritical, stateNotStarted, stateRunning, stateShuttingDown, stateTerminated])⟩

theorem step_inv_notReady (w : World) (h : Inv w) :
    ∃ w1, step w (.notReady) = .ok w1 ∧ Inv w1 ∧ StepOk w w1 := by
  cases h with
  | fresh config path logs =>
    exact ⟨_, rfl, Inv.fresh _ _ _,
      (by simp [StepOk, legalEdge, Start, ShutdownLocked, ShutdownSelect, Ready, NotReady,
          watcherCritical, stateNotStarted, stateRunning, stateShuttingDown, stateTerminated])⟩
  | started config path logs cmd st n b pc waiting hw hpc =>
    cases pc <;> simp only [PcOk] at hpc <;> casesm* _ ∧ _, _ ∨ _ <;> subst_vars <;>
      exact ⟨_, rfl, Inv.started _ _ _ _ _ _ _ _ _ (by omega)
        (by simp [PcOk, watcherCritical]),
        (by simp [StepOk, legalEdge, Start, ShutdownLocked, ShutdownSelect, Ready, NotReady,
          watcherCritical, stateNotStarted, stateRunning, stateShuttingDown, stateTerminated])⟩

theorem step_inv_runReturns (w : World) (i : Nat) (r : RunResult) (h : Inv w) :
    ∃ w1, step w (.runReturns i r) = .ok w1 ∧ Inv w1 ∧ StepOk w w1 := by
  cases h with
  | fresh config path logs =>
    exact ⟨_, rfl, Inv.fresh _ _ _,
      (by simp [StepOk, legalEdge, Start, ShutdownLocked, ShutdownSelect, Ready, NotReady,
          watcherCritical, stateNotStarted, stateRunning, stateShuttingDown, stateTerminated])⟩
  | started config path logs cmd st n b pc waiting hw hpc =>
    rcases i with _ | i <;> cases pc <;> simp only [PcOk] at hpc <;> casesm* _ ∧ _, _ ∨ _ <;> subst_vars <;>
      exact ⟨_, rfl, Inv.started _ _ _ _ _ _ _ _ _ (by first | omega | (simp; omega))
        (by simp [PcOk, watcherCritical]),
        (by simp [StepOk, legalEdge, Start, ShutdownLocked, ShutdownSelect, Ready, NotReady,
          watcherCritical, stateNotStarted, stateRunning, stateShuttingDown, stateTerminated])⟩

theorem step_inv_watcherLock (w : World) (i : Nat) (h : Inv w) :
    ∃ w1, step w (.watcherLock i) = .ok w1 ∧ Inv w1 ∧ StepOk w w1 := by
  cases h with
  | fresh config path logs =>
    exact ⟨_, rfl, Inv.fresh _ _ _,
      (by simp [StepOk, legalEdge, Start, ShutdownLocked, ShutdownSelect, Ready, NotReady,
          watcherCritical, stateNotStarted, stateRunning, stateShuttingDown, stateTerminated])⟩
  | started config path logs cmd st n b pc waiting hw hpc =>
    rcases i with _ | i <;> cases pc <;> simp only [PcOk] at hpc <;> casesm* _ ∧ _, _ ∨ _ <;> subst_vars <;>
      exact ⟨_, rfl, Inv.started _ _ _ _ _ _ _ _ _ (by first | omega | (simp; omega))
        (by simp [PcOk, watcherCritical]),
        (by simp [StepOk, legalEdge, Start, ShutdownLocked, ShutdownSelect, Ready, NotReady,
          watcherCritical, stateNotStarted, stateRunning, stateShuttingDown, stateTerminated])⟩

theorem step_inv_watcherLog (w : World) (i : Nat) (h : Inv w) :
    ∃ w1, step w (.watcherLog i) = .ok w1 ∧ Inv w1 ∧ StepOk w w1 := by
  cases h with
  | fresh config path logs =>
    exact ⟨_, rfl, Inv.fresh _ _ _,
      (by simp [StepOk, legalEdge, Start, ShutdownLocked, ShutdownSelect, Ready, NotReady,
          watcherCritical, stateNotStarted, stateRunning, stateShuttingDown, stateTerminated])⟩
  | started config path logs cmd st n b pc waiting hw hpc =>
    rcases i with _ | i <;> cases pc <;> simp only [PcOk] at hpc <;> casesm* _ ∧ _, _ ∨ _ <;> subst_vars <;>
      exact ⟨_, rfl, Inv.started _ _ _ _ _ _ _ _ _ (by first | omega | (simp; omega))
        (by simp [PcOk, watcherCritical]),
        (by simp [StepOk, legalEdge, Start, ShutdownLocked, ShutdownSelect, Ready, NotReady,
          watcherCritical, stateNotStarted, stateRunning, stateShuttingDown, stateTerminated])⟩

theorem step_inv_watcherClose (w : World) (i : Nat) (h : Inv w) :
    ∃ w1, step w (.watcherClose i) = .ok w1 ∧ Inv w1 ∧ StepOk w w1 := by
  cases h with
  | fresh config path logs =>
    exact ⟨_, rfl, Inv.fresh _ _ _,
      (by simp [StepOk, legalEdge, Start, ShutdownLocked, ShutdownSelect, Ready, NotReady,
          watcherCritical, stateNotStarted, stateRunning, stateShuttingDown, stateTerminated])⟩
  | started config path logs cmd st n b pc waiting hw hpc =>
    rcases i with _ | i <;> cases pc <;> simp only [PcOk] at hpc <;> casesm* _ ∧ _, _ ∨ _ <;> subst_vars <;>
      exact ⟨_, rfl, Inv.started _ _ _ _ _ _ _ _ _ (by first | omega | (simp; omega))
        (by simp [PcOk, watcherCritical]),
        (by simp [StepOk, legalEdge, Start, ShutdownLocked, ShutdownSelect, Ready, NotReady,
          watcherCritical, stateNotStarted, stateRunning, stateShuttingDown, stateTerminated])⟩

/-- Every step from a world satisfying the invariant succeeds (no panic), keeps the invariant and
respects `StepOk`. -/
theorem step_inv (w : World) (ev : Event) (h : Inv w) :
    ∃ w1, step w ev = .ok w1 ∧ Inv w1 ∧ StepOk w w1 := by
  cases ev with
  | start => exact step_inv_start w h
  | shutdown => exact step_inv_shutdown w h
  | shutdownSelect c => exact step_inv_shutdownSelect w c h
  | ready => exact step_inv_ready w h
  | notReady => exact step_inv_notReady w h
  | runReturns i r => exact step_inv_runReturns w i r h
  | watcherLock i => exact step_inv_watcherLock w i h
  | watcherLog i => exact step_inv_watcherLog w i h
  | watcherClose i => exact step_inv_watcherClose w i h

theorem run_inv (evs : List Event) : ∀ (w : World), Inv w → ∃ w1, run w evs = .ok w1 ∧ Inv w1 := by
  induction evs with
  | nil => intro w h; exact ⟨w, rfl, h⟩
  | cons ev evs ih =>
    intro w h
    obtain ⟨w1, h1, hi, _⟩ := step_inv w ev h
    obtain ⟨w2, h2, hi2⟩ := ih w1 hi
    exact ⟨w2, by simp [run, h1, h2], hi2⟩

theorem run_new_inv (config : Config) (alloyPath : String) (evs : List Event) :
    ∃ w, run (World.new config alloyPath) evs = .ok w ∧ Inv w :=
  run_inv evs _ (new_inv config alloyPath)

/-! ## Consequences of the invariant -/

theorem Inv.state_ne_notStarted {st : state} {n : Nat} {b : Bool} {pc : WatcherPc}
    (h : PcOk st n b pc) : st ≠ stateNotStarted := by
  cases pc <;> simp only [PcOk] at h <;> casesm* _ ∧ _, _ ∨ _ <;> subst_vars <;>
    simp [stateNotStarted, stateRunning, stateShuttingDown, stateTerminated]

theorem Inv.count_le_one {st : state} {n : Nat} {b : Bool} {pc : WatcherPc}
    (h : PcOk st n b pc) : n ≤ 1 := by
  cases pc <;> simp only [PcOk] at h <;> casesm* _ ∧ _, _ ∨ _ <;> subst_vars <;> omega

theorem Inv.running_count {n : Nat} {b : Bool} {pc : WatcherPc}
    (h : PcOk stateRunning n b pc) : n = 0 := by
  cases pc <;> simp only [PcOk] at h <;> casesm* _ ∧ _, _ ∨ _ <;>
    simp_all [stateRunning, stateShuttingDown, stateTerminated]

theorem Inv.state_range {w : World} (h : Inv w) :
    w.ext.state = stateNotStarted ∨ w.ext.state = stateRunning ∨
      w.ext.state = stateShuttingDown ∨ w.ext.state = stateTerminated := by
  cases h with
  | fresh config path logs => exact Or.inl rfl
  | started config path logs cmd st n b pc waiting hw hpc =>
    cases pc <;> simp only [PcOk] at hpc <;> tauto

theorem Inv.handle_iff {w : World} (h : Inv w) :
    w.ext.runCancel.isSome = true ↔ w.ext.state ≠ stateNotStarted := by
  cases h with
  | fresh config path logs => simp
  | started config path logs cmd st n b pc waiting hw hpc =>
    simpa using Inv.state_ne_notStarted hpc

theorem Inv.watchers_le {w : World} (h : Inv w) : w.watchers.length ≤ 1 := by
  cases h <;> simp

theorem Inv.cancels_le {w : World} (h : Inv w) : w.cancels.sum ≤ 1 := by
  cases h with
  | fresh config path logs => simp
  | started config path logs cmd st n b pc waiting hw hpc =>
    simpa using Inv.count_le_one hpc

theorem Inv.returned_state {w : World} (h : Inv w) (i : Nat) (cmd : Cmd) (ch : Option Nat)
    (err : Option String) (hi : w.watchers[i]? = some ⟨cmd, ch, .returned err⟩) :
    w.ext.state = stateRunning ∨ w.ext.state = stateShuttingDown := by
  cases h with
  | fresh config path logs => simp at hi
  | started config path logs cmd0 st n b pc waiting hw hpc =>
    rcases i with _ | i
    · simp at hi
      obtain ⟨_, _, hpc1⟩ := hi
      subst hpc1
      simp only [PcOk] at hpc
      tauto
    · simp at hi

theorem Inv.shutdown_running {w : World} (h : Inv w) (hs : w.ext.state = stateRunning) :
    w.ext.runCancel = some 0 ∧ w.cancels = [0] ∧
      ShutdownLocked w = .ok ({ w with
          ext := { w.ext with state := stateShuttingDown }
          cancels := [1]
          logs := w.logs ++ [⟨.info, "alloyengine extension shutting down", []⟩] }, .select) := by
  cases h with
  | fresh config path logs => simp [stateNotStarted, stateRunning] at hs
  | started config path logs cmd st n b pc waiting hw hpc =>
    simp only at hs
    subst hs
    have hn := Inv.running_count hpc
    subst hn
    exact ⟨rfl, rfl, rfl⟩

theorem Inv.no_watcher {w : World} (h : Inv w) (hw : w.watchers = []) :
    w.ext.state = stateNotStarted := by
  cases h with
  | fresh config path logs => rfl
  | started config path logs cmd st n b pc waiting hw1 hpc => simp at hw

theorem legalEdge_ne_notStarted {a b : state} (h : legalEdge a b) : b ≠ stateNotStarted := by
  rcases h with ⟨_, h⟩ | ⟨_, h⟩ | ⟨_, h⟩ | ⟨_, h⟩ <;> subst h <;>
    simp [stateNotStarted, stateRunning, stateShuttingDown, stateTerminated]

theorem legalEdge_after_shutdown {a b : state} (h : legalEdge a b)
    (ha : a = stateShuttingDown ∨ a = stateTerminated) : b = stateTerminated := by
  rcases ha with ha | ha <;> subst ha <;>
    rcases h with ⟨h1, h⟩ | ⟨h1, h⟩ | ⟨h1, h⟩ | ⟨h1, h⟩ <;>
    simp_all [stateNotStarted, stateRunning, stateShuttingDown, stateTerminated]

/-! ## Single operations -/

theorem String_running : state.String stateRunning = "running" := rfl

theorem String_shuttingDown : state.String stateShuttingDown = "shutting_down" := rfl

theorem String_terminated : state.String stateTerminated = "terminated" := rfl

theorem Start_of_notStarted (w : World) (h : w.ext.state = stateNotStarted) :
    (Start w).2 = none ∧ (Start w).1.ext.state = stateRunning := by
  simp [Start, h]

theorem Start_of_ne (w : World) (h : w.ext.state ≠ stateNotStarted) :
    Start w =
      (w, some ("cannot start alloyengine extension in current state: " ++ state.String w.ext.state)) := by
  simp [Start, h]

theorem Ready_of_ne (w : World) (h : w.ext.state ≠ stateRunning) :
    Ready w =
      (w, some ("alloyengine extension not ready in current state: " ++ state.String w.ext.state)) := by
  simp [Ready, h]

theorem NotReady_of_ne (w : World) (h : w.ext.state ≠ stateRunning) :
    NotReady w =
      (w, some ("alloyengine extension not ready in current state: " ++ state.String w.ext.state)) := by
  simp [NotReady, h]

/-- Outside `stateRunning` the critical section of `Shutdown` only writes one log line and
returns nil. -/
theorem ShutdownLocked_of_ne (w : World) (h : w.ext.state ≠ stateRunning) :
    ∃ entry, ShutdownLocked w = .ok ({ w with logs := w.logs ++ [entry] }, .returned none) := by
  unfold ShutdownLocked
  rw [if_neg h]
  by_cases h0 : w.ext.state = stateNotStarted
  · rw [if_pos h0]
    exact ⟨_, rfl⟩
  · rw [if_neg h0]
    exact ⟨_, rfl⟩

theorem ShutdownSelect_snd (w : World) (c : SelectCase) : (ShutdownSelect w c).2 = none := by
  cases c <;> rfl

/-- Caller-facing operations leave a terminated world as it is, up to the log. -/
theorem step_call_terminated (w : World) (h : w.ext.state = stateTerminated) (ev : Event)
    (hev : ev = .start ∨ ev = .shutdown ∨ ev = .ready ∨ ev = .notReady) :
    ∃ w1, step w ev = .ok w1 ∧ w1.ext = w.ext ∧ w1.chans = w.chans ∧ w1.cancels = w.cancels ∧
      w1.watchers = w.watchers ∧ w1.waiting = w.waiting := by
  have h0 : w.ext.state ≠ stateNotStarted := by rw [h]; decide
  have h1 : w.ext.state ≠ stateRunning := by rw [h]; decide
  rcases hev with hev | hev | hev | hev <;> subst hev
  · exact ⟨w, by simp [step, Start_of_ne w h0], rfl, rfl, rfl, rfl, rfl⟩
  · obtain ⟨entry, he⟩ := ShutdownLocked_of_ne w h1
    exact ⟨{ w with logs := w.logs ++ [entry] }, by simp only [step, he], rfl, rfl, rfl, rfl, rfl⟩
  · exact ⟨w, by simp [step, Ready_of_ne w h1], rfl, rfl, rfl, rfl, rfl⟩
  · exact ⟨w, by simp [step, NotReady_of_ne w h1], rfl, rfl, rfl, rfl, rfl⟩

/-! ## The claims about `Start`, `Shutdown`, `Ready` and `NotReady` -/

/-- C1: `Start` returns nil exactly when the state is `stateNotStarted`, and then the state becomes
`stateRunning`.  In every other state it returns the error naming that state (`running`,
`shutting_down`, `terminated`) and the whole world, in particular the state, the cancel handle
and the completion channel, is left as it was. -/
theorem Start_succeeds_iff_notStarted (w : World) :
    ((Start w).2 = none ↔ w.ext.state = stateNotStarted) ∧
    (w.ext.state = stateNotStarted → (Start w).1.ext.state = stateRunning) ∧
    (w.ext.state ≠ stateNotStarted →
      (Start w).1 = w ∧
      (Start w).2 = some ("cannot start alloyengine extension in current state: " ++
        state.String w.ext.state)) ∧
    (w.ext.state = stateRunning →
      (Start w).2 = some "cannot start alloyengine extension in current state: running") ∧
    (w.ext.state = stateShuttingDown →
      (Start w).2 = some "cannot start alloyengine extension in current state: shutting_down") ∧
    (w.ext.state = stateTerminated →
      (Start w).2 = some "cannot start alloyengine extension in current state: terminated") := by
  refine ⟨?_, fun h => (Start_of_notStarted w h).2, fun h => ?_, fun h => ?_, fun h => ?_,
    fun h => ?_⟩
  · by_cases h : w.ext.state = stateNotStarted
    · simp [Start, h]
    · simp [Start, h]
  · rw [Start_of_ne w h]
    exact ⟨rfl, rfl⟩
  · rw [Start_of_ne w (by rw [h]; decide), h]
    rfl
  · rw [Start_of_ne w (by rw [h]; decide), h]
    rfl
  · rw [Start_of_ne w (by rw [h]; decide), h]
    rfl

/-- Instance of C1 on the sample world: the first `Start` succeeds and moves to
`stateRunning`, the second one is refused and changes nothing. -/
theorem Start_succeeds_iff_notStarted_witness :
    (Start demoWorld).2 = none ∧ (Start demoWorld).1.ext.state = stateRunning ∧
    (Start (Start demoWorld).1).1 = (Start demoWorld).1 ∧
    (Start (Start demoWorld).1).2 =
      some "cannot start alloyengine extension in current state: running" :=
  ⟨(Start_succeeds_iff_notStarted demoWorld).1.mpr rfl,
   (Start_succeeds_iff_notStarted demoWorld).2.1 rfl,
   ((Start_succeeds_iff_notStarted (Start demoWorld).1).2.2.1 (by decide)).1,
   (Start_succeeds_iff_notStarted (Start demoWorld).1).2.2.2.1 rfl⟩

/-- C2 (as stated, refuted): on the sample world the launch fails with "no such file or
directory", yet `Start` has returned nil and the state is `stateRunning`, not
`stateNotStarted`; once the exit watcher has seen the failure the state is
`stateTerminated` and a further `Start` is refused. -/
theorem Start_launch_failure_counterexample :
    ¬ ((Start demoWorld).2 = some "fork/exec /usr/bin/alloy: no such file or directory" ∧
        (Start demoWorld).1.ext.state = stateNotStarted) ∧
    (Start demoWorld).2 = none ∧ (Start demoWorld).1.ext.state = stateRunning ∧
    ∃ w, run demoWorld [.start,
        .runReturns 0 (.startError "fork/exec /usr/bin/alloy: no such file or directory"),
        .watcherLock 0] = .ok w ∧
      w.ext.state = stateTerminated ∧
      (Start w).2 = some "cannot start alloyengine extension in current state: terminated" :=
  ⟨by decide, rfl, rfl, _, rfl, rfl, rfl⟩

/-- C2 (amended): `Start` never returns a launch failure, its only error is the one of the state
guard.  On a newly constructed extension `Start` returns nil and moves to `stateRunning`
whatever happens to the launch; a launch failure `msg` is the value of `cmd.Run()` inside the
exit watcher, which stores `stateTerminated` and logs the failure at error level, and a
later `Start` is refused with the error naming `terminated`. -/
theorem Start_launch_failure_is_asynchronous (config : Config) (alloyPath msg : String) :
    (∀ w : World, (Start w).2 = none ∨
      (Start w).2 = some ("cannot start alloyengine extension in current state: " ++
        state.String w.ext.state)) ∧
    (Start (World.new config alloyPath)).2 = none ∧
    (Start (World.new config alloyPath)).1.ext.state = stateRunning ∧
    ∃ w, run (World.new config alloyPath)
        [.start, .runReturns 0 (.startError msg), .watcherLock 0, .watcherLog 0] = .ok w ∧
      w.ext.state = stateTerminated ∧
      w.logs.getLast? =
        some ⟨.error, "run command exited unexpectedly with an error", [("error", msg)]⟩ ∧
      Start w = (w, some "cannot start alloyengine extension in current state: terminated") := by
  refine ⟨fun w => ?_, rfl, rfl, _, rfl, rfl, rfl, rfl⟩
  by_cases h : w.ext.state = stateNotStarted
  · exact Or.inl (Start_of_notStarted w h).1
  · exact Or.inr (by rw [Start_of_ne w h])

/-- C3: in a world whose state is `stateTerminated`, `Start`, `Ready` and `NotReady` return the
error naming `terminated` and change nothing, the critical section of `Shutdown` returns nil
and only appends its log line, and after any sequence of these four calls the extension record,
the channels, the cancel counters and the goroutines are still the same. -/
theorem terminated_absorbing (w : World) (h : w.ext.state = stateTerminated) :
    Start w = (w, some "cannot start alloyengine extension in current state: terminated") ∧
    Ready w = (w, some "alloyengine extension not ready in current state: terminated") ∧
    NotReady w = (w, some "alloyengine extension not ready in current state: terminated") ∧
    ShutdownLocked w = .ok ({ w with
        logs := w.logs ++ [⟨.warn, "alloyengine extension shutdown in current state is a no-op",
                            [("state", "terminated")]⟩] }, .returned none) ∧
    ∀ calls : List Event,
      (∀ ev ∈ calls, ev = .start ∨ ev = .shutdown ∨ ev = .ready ∨ ev = .notReady) →
      ∃ w1, run w calls = .ok w1 ∧ w1.ext = w.ext ∧ w1.chans = w.chans ∧
        w1.cancels = w.cancels ∧ w1.watchers = w.watchers ∧ w1.waiting = w.waiting := by
  have h0 : w.ext.state ≠ stateNotStarted := by rw [h]; decide
  have h1 : w.ext.state ≠ stateRunning := by rw [h]; decide
  refine ⟨?_, ?_, ?_, ?_, ?_⟩
  · rw [Start_of_ne w h0, h]
    rfl
  · rw [Ready_of_ne w h1, h]
    rfl
  · rw [NotReady_of_ne w h1, h]
    rfl
  · unfold ShutdownLocked
    rw [if_neg h1, if_neg h0, h]
    rfl
  · intro calls
    induction calls generalizing w with
    | nil => intro _; exact ⟨w, rfl, rfl, rfl, rfl, rfl, rfl⟩
    | cons ev evs ih =>
      intro hall
      obtain ⟨w1, hs, e1, e2, e3, e4, e5⟩ :=
        step_call_terminated w h ev (hall ev (List.mem_cons_self _ _))
      have ht : w1.ext.state = stateTerminated := by rw [e1, h]
      obtain ⟨w2, hr, f1, f2, f3, f4, f5⟩ :=
        ih w1 ht (by rw [ht]; decide) (by rw [ht]; decide)
          (fun e he => hall e (List.mem_cons_of_mem _ he))
      exact ⟨w2, by simp only [run, hs, hr], f1.trans e1, f2.trans e2, f3.trans e3,
        f4.trans e4, f5.trans e5⟩

/-- Instance of C3 on the world reached by a start followed by a clean exit of the child. -/
theorem terminated_absorbing_witness :
    (demoRun [.start, .runReturns 0 .exit0, .watcherLock 0]).ext.state = stateTerminated ∧
    Ready (demoRun [.start, .runReturns 0 .exit0, .watcherLock 0]) =
      (demoRun [.start, .runReturns 0 .exit0, .watcherLock 0],
        some "alloyengine extension not ready in current state: terminated") ∧
    ∃ w1, run (demoRun [.start, .runReturns 0 .exit0, .watcherLock 0])
        [.shutdown, .start, .ready, .notReady] = .ok w1 ∧
      w1.ext = (demoRun [.start, .runReturns 0 .exit0, .watcherLock 0]).ext :=
  ⟨rfl,
   (terminated_absorbing (demoRun [.start, .runReturns 0 .exit0, .watcherLock 0]) rfl).2.1,
   let ⟨w1, h1, h2, _⟩ :=
     (terminated_absorbing (demoRun [.start, .runReturns 0 .exit0, .watcherLock 0]) rfl).2.2.2.2
       [.shutdown, .start, .ready, .notReady] (by simp)
   ⟨w1, h1, h2⟩⟩

/-! ## The claims about interleavings -/

/-- After the critical section of a `Shutdown` has run in `stateRunning`, every continuation
stays in `stateShuttingDown` or `stateTerminated` and never calls the cancel function
again. -/
theorem run_after_shutdown (evs : List Event) :
    ∀ w : World, Inv w →
      (w.ext.state = stateShuttingDown ∨ w.ext.state = stateTerminated) → w.cancels.sum = 1 →
      ∃ w2, run w evs = .ok w2 ∧ Inv w2 ∧
        (w2.ext.state = stateShuttingDown ∨ w2.ext.state = stateTerminated) ∧
        w2.cancels.sum = 1 := by
  induction evs with
  | nil => intro w h hs hc; exact ⟨w, rfl, h, hs, hc⟩
  | cons ev evs ih =>
    intro w h hs hc
    obtain ⟨w1, h1, hi, hedge, _, hmono⟩ := step_inv w ev h
    have hs1 : w1.ext.state = stateShuttingDown ∨ w1.ext.state = stateTerminated := by
      rcases hedge with he | he
      · rw [he]; exact hs
      · exact Or.inr (legalEdge_after_shutdown he hs)
    have hc1 : w1.cancels.sum = 1 := by
      have := Inv.cancels_le hi
      omega
    obtain ⟨w2, h2, hi2, hs2, hc2⟩ := ih w1 hi hs1 hc1
    exact ⟨w2, by simp only [run, h1, h2], hi2, hs2, hc2⟩

/-- C4: from a newly constructed extension, after any sequence of events, any further step
succeeds and either keeps the lifecycle state or follows one of the four legal edges; and
whenever a goroutine is about to execute the write of `stateTerminated` (its `cmd.Run()`
has returned), the state is `stateRunning` or `stateShuttingDown`. -/
theorem lifecycle_edges_legal (config : Config) (alloyPath : String) (evs : List Event)
    (ev : Event) :
    ∃ w w1, run (World.new config alloyPath) evs = .ok w ∧ step w ev = .ok w1 ∧
      (w1.ext.state = w.ext.state ∨ legalEdge w.ext.state w1.ext.state) ∧
      ∀ (i : Nat) (cmd : Cmd) (ch : Option Nat) (err : Option String),
        w.watchers[i]? = some ⟨cmd, ch, .returned err⟩ →
        (w.ext.state = stateRunning ∨ w.ext.state = stateShuttingDown) ∧
        ∃ w2, step w (.watcherLock i) = .ok w2 ∧ w2.ext.state = stateTerminated := by
  obtain ⟨w, hr, hi⟩ := run_new_inv config alloyPath evs
  obtain ⟨w1, hs, _, hedge, _⟩ := step_inv w ev hi
  refine ⟨w, w1, hr, hs, hedge, fun i cmd ch err h => ⟨Inv.returned_state hi i cmd ch err h, ?_⟩⟩
  simp only [step, h]
  exact ⟨_, rfl, rfl⟩

/-- Instance of C4: the child of the sample world exits with an error while the state is
`stateRunning`; the goroutine is at the point of writing and the write follows the edge
from `stateRunning` to `stateTerminated`. -/
theorem lifecycle_edges_legal_witness :
    (demoRun [.start, .runReturns 0 (.waitError "exit status 1")]).watchers[0]? =
      some ⟨⟨0, "/usr/bin/alloy",
        ["/usr/bin/alloy", "run", "config.alloy", "--stability.level=experimental"]⟩, some 0,
        .returned (some "exit status 1")⟩ ∧
    ((demoRun [.start, .runReturns 0 (.waitError "exit status 1")]).ext.state = stateRunning ∨
      (demoRun [.start, .runReturns 0 (.waitError "exit status 1")]).ext.state =
        stateShuttingDown) ∧
    ∃ w2, step (demoRun [.start, .runReturns 0 (.waitError "exit status 1")]) (.watcherLock 0) =
      .ok w2 ∧ w2.ext.state = stateTerminated := by
  obtain ⟨w, w1, hr, _, _, hpc⟩ := lifecycle_edges_legal demoConfig "/usr/bin/alloy"
    [.start, .runReturns 0 (.waitError "exit status 1")] (.watcherLock 0)
  have hw : w = demoRun [.start, .runReturns 0 (.waitError "exit status 1")] :=
    Except.ok.inj (hr.symm.trans rfl)
  subst hw
  exact ⟨rfl, hpc 0 _ _ _ rfl⟩

/-- C5: from a newly constructed extension, after any sequence of events there is at most one
goroutine, hence at most one `cmd.Run()`; a step never removes one, adds one only when taken in
`stateNotStarted`, and never leads back to `stateNotStarted` from another state. -/
theorem at_most_one_child (config : Config) (alloyPath : String) (evs : List Event)
    (ev : Event) :
    ∃ w w1, run (World.new config alloyPath) evs = .ok w ∧ step w ev = .ok w1 ∧
      w.watchers.length ≤ w1.watchers.length ∧ w1.watchers.length ≤ 1 ∧
      (w.watchers.length < w1.watchers.length → w.ext.state = stateNotStarted) ∧
      (w.ext.state ≠ stateNotStarted → w1.ext.state ≠ stateNotStarted) := by
  obtain ⟨w, hr, hi⟩ := run_new_inv config alloyPath evs
  obtain ⟨w1, hs, hi1, hedge, hlen, _⟩ := step_inv w ev hi
  refine ⟨w, w1, hr, hs, hlen, Inv.watchers_le hi1, fun hlt => ?_, fun hne => ?_⟩
  · have := Inv.watchers_le hi1
    exact Inv.no_watcher hi (List.length_eq_zero.mp (by omega))
  · rcases hedge with he | he
    · rw [he]; exact hne
    · exact legalEdge_ne_notStarted he

/-- Instance of C5: a second `Start` on the sample world adds no goroutine. -/
theorem at_most_one_child_witness :
    (demoRun [.start]).watchers.length = 1 ∧
    ∃ w1, step (demoRun [.start]) .start = .ok w1 ∧ w1.watchers.length = 1 ∧
      w1.ext.state ≠ stateNotStarted := by
  obtain ⟨w, w1, hr, hs, hle, hone, _, hne⟩ :=
    at_most_one_child demoConfig "/usr/bin/alloy" [.start] .start
  have hw : w = demoRun [.start] := Except.ok.inj (hr.symm.trans rfl)
  subst hw
  have hlen : (demoRun [.start]).watchers.length = 1 := rfl
  exact ⟨hlen, w1, hs, by omega, hne (by decide)⟩

/-- C6: from a newly constructed extension, after any sequence of events, if the state is
`stateRunning` then `runCancel` is a live cancel function and the critical section of
`Shutdown` does not panic: it reaches the `select`. -/
theorem running_has_cancel (config : Config) (alloyPath : String) (evs : List Event) :
    ∃ w, run (World.new config alloyPath) evs = .ok w ∧
      (w.ext.state = stateRunning →
        (∃ c, w.ext.runCancel = some c ∧ c < w.cancels.length) ∧
        ∃ w1, ShutdownLocked w = .ok (w1, .select)) := by
  obtain ⟨w, hr, hi⟩ := run_new_inv config alloyPath evs
  refine ⟨w, hr, fun hs => ?_⟩
  obtain ⟨h1, h2, h3⟩ := Inv.shutdown_running hi hs
  exact ⟨⟨0, h1, by simp [h2]⟩, _, h3⟩

/-- Instance of C6: after `Start` on the sample world the state is `stateRunning`, the handle
is set and `Shutdown` reaches its `select`. -/
theorem running_has_cancel_witness :
    (demoRun [.start]).ext.state = stateRunning ∧
    (∃ c, (demoRun [.start]).ext.runCancel = some c ∧ c < (demoRun [.start]).cancels.length) ∧
    ∃ w1, ShutdownLocked (demoRun [.start]) = .ok (w1, .select) := by
  obtain ⟨w, hr, h⟩ := running_has_cancel demoConfig "/usr/bin/alloy" [.start]
  have hw : w = demoRun [.start] := Except.ok.inj (hr.symm.trans rfl)
  subst hw
  exact ⟨rfl, h rfl⟩

/-- C7 (as stated, refuted): after a start and a clean exit of the child the state is
`stateTerminated` while `runCancel` is still set. -/
theorem cancel_handle_iff_counterexample :
    ∃ w, run demoWorld [.start, .runReturns 0 .exit0, .watcherLock 0] = .ok w ∧
      w.ext.state = stateTerminated ∧ w.ext.runCancel = some 0 ∧
      ¬ (w.ext.runCancel.isSome = true ↔
          (w.ext.state = stateRunning ∨ w.ext.state = stateShuttingDown)) :=
  ⟨_, rfl, rfl, rfl, by decide⟩

/-- C7 (amended): from a newly constructed extension, after any sequence of events, `runCancel`
is set if and only if the state is `stateRunning`, `stateShuttingDown` or
`stateTerminated`; it is nil exactly in `stateNotStarted`. -/
theorem cancel_handle_iff_started (config : Config) (alloyPath : String) (evs : List Event) :
    ∃ w, run (World.new config alloyPath) evs = .ok w ∧
      (w.ext.runCancel.isSome = true ↔
        (w.ext.state = stateRunning ∨ w.ext.state = stateShuttingDown ∨
          w.ext.state = stateTerminated)) ∧
      (w.ext.runCancel = none ↔ w.ext.state = stateNotStarted) := by
  obtain ⟨w, hr, hi⟩ := run_new_inv config alloyPath evs
  have hiff := Inv.handle_iff hi
  have hrange : w.ext.state = stateNotStarted ∨ w.ext.state = stateRunning ∨
      w.ext.state = stateShuttingDown ∨ w.ext.state = stateTerminated := Inv.state_range hi
  refine ⟨w, hr, ?_, ?_⟩
  · rw [hiff]
    constructor
    · intro hne
      rcases hrange with h | h | h | h
      · exact absurd h hne
      · exact Or.inl h
      · exact Or.inr (Or.inl h)
      · exact Or.inr (Or.inr h)
    · intro h
      rcases h with h | h | h <;> rw [h] <;> decide
  · rw [← not_iff_not]
    refine Iff.trans ?_ hiff
    cases w.ext.runCancel <;> simp

/-- C8: called in `stateNotStarted`, `stateShuttingDown` or `stateTerminated`, `Shutdown`
returns nil from its critical section without reaching the `select`; the extension record, the
channels (nothing is closed), the cancel counters (the handle is not called), the goroutines
(nothing is launched) and the set of blocked callers are unchanged.  Only a log line is
written. -/
theorem Shutdown_noop_outside_running (w : World)
    (h : w.ext.state = stateNotStarted ∨ w.ext.state = stateShuttingDown ∨
      w.ext.state = stateTerminated) :
    ∃ w1, ShutdownLocked w = .ok (w1, .returned none) ∧ step w .shutdown = .ok w1 ∧
      w1.ext = w.ext ∧ w1.chans = w.chans ∧ w1.cancels = w.cancels ∧
      w1.watchers = w.watchers ∧ w1.waiting = w.waiting := by
  have h1 : w.ext.state ≠ stateRunning := by
    rcases h with h | h | h <;> rw [h] <;> decide
  obtain ⟨entry, he⟩ := ShutdownLocked_of_ne w h1
  exact ⟨{ w with logs := w.logs ++ [entry] }, he, by simp only [step, he],
    rfl, rfl, rfl, rfl, rfl⟩

/-- Instance of C8: `Shutdown` before any `Start` on the sample world. -/
theorem Shutdown_noop_outside_running_witness :
    demoWorld.ext.state = stateNotStarted ∧
    ∃ w1, ShutdownLocked demoWorld = .ok (w1, .returned none) ∧
      step demoWorld .shutdown = .ok w1 ∧ w1.ext = demoWorld.ext ∧ w1.chans = demoWorld.chans ∧
      w1.cancels = demoWorld.cancels ∧ w1.watchers = demoWorld.watchers ∧
      w1.waiting = demoWorld.waiting :=
  ⟨rfl, Shutdown_noop_outside_running demoWorld (Or.inl rfl)⟩

/-- C9: in a world where `runCancel` is set whenever the state is `stateRunning`, the
critical section of `Shutdown` either returns nil or reaches the `select`, and both cases of the
`select` (completion channel closed, context of the caller done) return nil in whatever world
they fire.  The assumption holds after every sequence of events from a newly constructed
extension. -/
theorem Shutdown_never_fails (w : World)
    (h : w.ext.state = stateRunning → w.ext.runCancel ≠ none) :
    (∃ w1, ShutdownLocked w = .ok (w1, .returned none) ∨ ShutdownLocked w = .ok (w1, .select)) ∧
    (∀ (w2 : World) (c : SelectCase), (ShutdownSelect w2 c).2 = none) ∧
    ∀ (config : Config) (alloyPath : String) (evs : List Event),
      ∃ wr, run (World.new config alloyPath) evs = .ok wr ∧
        (wr.ext.state = stateRunning → wr.ext.runCancel ≠ none) := by
  refine ⟨?_, ShutdownSelect_snd, fun config alloyPath evs => ?_⟩
  · by_cases hs : w.ext.state = stateRunning
    · cases hc : w.ext.runCancel with
      | none => exact absurd hc (h hs)
      | some c =>
        refine ⟨{ w with
          ext := { w.ext with state := stateShuttingDown }
          cancels := w.cancels.set c (w.cancels.getD c 0 + 1)
          logs := w.logs ++ [⟨.info, "alloyengine extension shutting down", []⟩] }, Or.inr ?_⟩
        unfold ShutdownLocked
        rw [if_pos hs, hc]
    · obtain ⟨entry, he⟩ := ShutdownLocked_of_ne w hs
      exact ⟨_, Or.inl he⟩
  · obtain ⟨wr, hr, hi⟩ := run_new_inv config alloyPath evs
    refine ⟨wr, hr, fun hs => ?_⟩
    rw [(Inv.shutdown_running hi hs).1]
    simp

/-- Instance of C9 on the sample world after `Start`: the state is `stateRunning`, the handle
is set, and `Shutdown` proceeds to its `select`. -/
theorem Shutdown_never_fails_witness :
    (Start demoWorld).1.ext.state = stateRunning ∧
    (∃ w1, ShutdownLocked (Start demoWorld).1 = .ok (w1, .returned none) ∨
      ShutdownLocked (Start demoWorld).1 = .ok (w1, .select)) ∧
    (ShutdownSelect (Start demoWorld).1 (.ctxDone "context deadline exceeded")).2 = none :=
  ⟨rfl, (Shutdown_never_fails (Start demoWorld).1 (fun _ => by decide)).1,
   (Shutdown_never_fails (Start demoWorld).1 (fun _ => by decide)).2.1 _ _⟩

/-- C10: from a newly constructed extension, after any sequence of events the cancel functions
have been called at most once in total, and no step lowers that count.  If the state is
`stateRunning`, a first `Shutdown` reaches the `select` and raises the count from 0 to 1;
after any further events `mid`, a second `Shutdown` sees `stateShuttingDown` or
`stateTerminated`, returns nil from its critical section and leaves the count at 1; the
`select` of the first caller returns nil as well. -/
theorem cancel_at_most_once (config : Config) (alloyPath : String) (evs mid : List Event) :
    ∃ w, run (World.new config alloyPath) evs = .ok w ∧ w.cancels.sum ≤ 1 ∧
      (∀ ev, ∃ w1, step w ev = .ok w1 ∧ w.cancels.sum ≤ w1.cancels.sum) ∧
      (w.ext.state = stateRunning →
        ∃ wa w1 w2 w3, ShutdownLocked w = .ok (wa, .select) ∧ step w .shutdown = .ok w1 ∧
          w.cancels.sum = 0 ∧ wa.cancels.sum = 1 ∧ w1.cancels = wa.cancels ∧
          run w1 mid = .ok w2 ∧
          (w2.ext.state = stateShuttingDown ∨ w2.ext.state = stateTerminated) ∧
          ShutdownLocked w2 = .ok (w3, .returned none) ∧
          w3.ext = w2.ext ∧ w3.cancels = w2.cancels ∧ w3.cancels.sum = 1 ∧
          ∀ c, (ShutdownSelect w2 c).2 = none) := by
  obtain ⟨w, hr, hi⟩ := run_new_inv config alloyPath evs
  refine ⟨w, hr, Inv.cancels_le hi, fun ev => ?_, fun hs => ?_⟩
  · obtain ⟨w1, h1, _, _, _, hmono⟩ := step_inv w ev hi
    exact ⟨w1, h1, hmono⟩
  · obtain ⟨_, hc, hl⟩ := Inv.shutdown_running hi hs
    obtain ⟨w1, h1, hi1, _⟩ := step_inv w .shutdown hi
    have hw1 : w1 = { w with
        ext := { w.ext with state := stateShuttingDown }
        cancels := [1]
        waiting := w.waiting + 1
        logs := w.logs ++ [⟨.info, "alloyengine extension shutting down", []⟩] } := by
      simp only [step, hl] at h1
      exact (Except.ok.inj h1).symm
    obtain ⟨w2, h2, hi2, hs2, hc2⟩ :=
      run_after_shutdown mid w1 hi1 (by rw [hw1]; exact Or.inl rfl) (by rw [hw1]; rfl)
    have hne : w2.ext.state ≠ stateRunning := by
      rcases hs2 with h | h <;> rw [h] <;> decide
    obtain ⟨entry, he⟩ := ShutdownLocked_of_ne w2 hne
    exact ⟨_, w1, w2, _, hl, h1, by rw [hc]; rfl, rfl, by rw [hw1], h2, hs2, he, rfl, rfl, hc2,
      ShutdownSelect_snd w2⟩

/-- Instance of C10 on the sample world: two `Shutdown` calls after `Start`, the child being
killed in between; the counter of the cancel function ends at 1. -/
theorem cancel_at_most_once_witness :
    (demoRun [.start]).ext.state = stateRunning ∧
    ∃ wa w1 w2 w3, ShutdownLocked (demoRun [.start]) = .ok (wa, .select) ∧
      step (demoRun [.start]) .shutdown = .ok w1 ∧ wa.cancels.sum = 1 ∧
      run w1 [.runReturns 0 (.waitError "signal: killed"), .watcherLock 0] = .ok w2 ∧
      ShutdownLocked w2 = .ok (w3, .returned none) ∧ w3.cancels.sum = 1 := by
  obtain ⟨w, hr, _, _, h⟩ := cancel_at_most_once demoConfig "/usr/bin/alloy" [.start]
    [.runReturns 0 (.waitError "signal: killed"), .watcherLock 0]
  have hw : w = demoRun [.start] := Except.ok.inj (hr.symm.trans rfl)
  subst hw
  obtain ⟨wa, w1, w2, w3, h1, h2, _, h4, _, h6, _, h8, _, _, h11, _⟩ := h rfl
  exact ⟨rfl, wa, w1, w2, w3, h1, h2, h4, h6, h8, h11⟩

/-! ## Scenarios and classification -/

theorem Inv.unlocked_prev {w : World} (h : Inv w) (i : Nat) (cmd : Cmd) (ch : Option Nat)
    (err : Option String) (prev : state)
    (hi : w.watchers[i]? = some ⟨cmd, ch, .unlocked err prev⟩) :
    w.ext.state = stateTerminated ∧
      ((prev = stateRunning ∧ w.cancels.sum = 0) ∨
        (prev = stateShuttingDown ∧ w.cancels.sum = 1)) := by
  cases h with
  | fresh config path logs => simp at hi
  | started config path logs cmd0 st n b pc waiting hw hpc =>
    rcases i with _ | i
    · simp at hi
      obtain ⟨_, _, hpc1⟩ := hi
      subst hpc1
      simp only [PcOk] at hpc
      obtain ⟨h1, _, h3⟩ := hpc
      exact ⟨h1, by simpa using h3⟩
    · simp at hi

theorem Inv.past_critical {w : World} (h : Inv w) (i : Nat) (cmd : Cmd) (ch : Option Nat)
    (pc : WatcherPc) (hi : w.watchers[i]? = some ⟨cmd, ch, pc⟩)
    (hpc : pc ≠ .running ∧ ∀ err, pc ≠ .returned err) :
    w.ext.state = stateTerminated := by
  cases h with
  | fresh config path logs => simp at hi
  | started config path logs cmd0 st n b pc0 waiting hw hpc0 =>
    rcases i with _ | i
    · simp at hi
      obtain ⟨_, _, hpc1⟩ := hi
      subst hpc1
      cases pc0 with
      | running => exact absurd rfl hpc.1
      | returned err => exact absurd rfl (hpc.2 err)
      | unlocked err prev => exact hpc0.1
      | logged => exact hpc0.1
      | done => exact hpc0.1
    · simp at hi

/-- C11: `Start` on a newly constructed extension succeeds; `Shutdown` then stores
`stateShuttingDown`, calls the cancel function once and blocks in the `select`, where only
the case of the context can fire because the completion channel is still open; that case
returns nil and leaves the state `stateShuttingDown`.  When `cmd.Run()` later returns `r`
(with or without an error) the critical section of the goroutine stores `stateTerminated`
and `Ready` reports the error naming `terminated`, also after the goroutine has finished.
Whatever else happens after `Shutdown` has returned, the state stays `stateShuttingDown` or
`stateTerminated`. -/
theorem shutdown_deadline_then_exit (config : Config) (alloyPath ctxErr : String)
    (r : RunResult) (mid : List Event) :
    ∃ w1 wa w2 w3 w4 w5,
      Start (World.new config alloyPath) = (w1, none) ∧
      ShutdownLocked w1 = .ok (wa, .select) ∧
      wa.ext.state = stateShuttingDown ∧ wa.cancels = [1] ∧
      step w1 .shutdown = .ok w2 ∧ w2.waiting = 1 ∧
      selectReady w2 .runExited = false ∧ selectReady w2 (.ctxDone ctxErr) = true ∧
      (ShutdownSelect w2 (.ctxDone ctxErr)).2 = none ∧
      step w2 (.shutdownSelect (.ctxDone ctxErr)) = .ok w3 ∧
      w3.ext.state = stateShuttingDown ∧ w3.cancels = [1] ∧ w3.waiting = 0 ∧
      run w3 [.runReturns 0 r, .watcherLock 0] = .ok w4 ∧
      w4.ext.state = stateTerminated ∧
      Ready w4 = (w4, some "alloyengine extension not ready in current state: terminated") ∧
      run w4 [.watcherLog 0, .watcherClose 0] = .ok w5 ∧
      w5.ext.state = stateTerminated ∧ w5.chans = [true] ∧
      Ready w5 = (w5, some "alloyengine extension not ready in current state: terminated") ∧
      ∃ w6, run w3 mid = .ok w6 ∧
        (w6.ext.state = stateShuttingDown ∨ w6.ext.state = stateTerminated) := by
  have hi3 : Inv (⟨⟨config, some 0, alloyPath, stateShuttingDown, some 0,
      some ⟨0, alloyPath, alloyPath :: "run" :: config.ConfigPath :: config.flagsAsSlice⟩⟩,
      [false], [1],
      [⟨⟨0, alloyPath, alloyPath :: "run" :: config.ConfigPath :: config.flagsAsSlice⟩, some 0,
        .running⟩], 0,
      [⟨.info, "alloyengine extension started successfully", []⟩,
       ⟨.info, "alloyengine extension shutting down", []⟩,
       ⟨.warn, "alloyengine extension shutdown interrupted by context",
         [("error", ctxErr)]⟩]⟩ : World) :=
    Inv.started _ _ _ _ _ _ _ _ _ (by omega) (by simp [PcOk])
  obtain ⟨w6, h6, _, hs6, _⟩ := run_after_shutdown mid _ hi3 (Or.inl rfl) rfl
  exact ⟨_, _, _, _, _, _, rfl, rfl, rfl, rfl, rfl, rfl, rfl, rfl, rfl, rfl, rfl, rfl, rfl, rfl,
    rfl, rfl, rfl, rfl, rfl, rfl, w6, h6, hs6⟩

/-- C12: `Ready` and `NotReady` return the same result in every world; the error is nil
exactly in `stateRunning`, and otherwise it is the text
`alloyengine extension not ready in current state: ` followed by `state.String` of the state
read, which is `not_started`, `shutting_down` or `terminated` for the three other lifecycle
states. -/
theorem Ready_NotReady_result (w : World) :
    Ready w = NotReady w ∧
    ((Ready w).2 = none ↔ w.ext.state = stateRunning) ∧
    (w.ext.state ≠ stateRunning →
      (Ready w).2 = some ("alloyengine extension not ready in current state: " ++
        state.String w.ext.state)) ∧
    (w.ext.state = stateNotStarted →
      (Ready w).2 = some "alloyengine extension not ready in current state: not_started") ∧
    (w.ext.state = stateShuttingDown →
      (Ready w).2 = some "alloyengine extension not ready in current state: shutting_down") ∧
    (w.ext.state = stateTerminated →
      (Ready w).2 = some "alloyengine extension not ready in current state: terminated") := by
  refine ⟨rfl, ?_, fun h => ?_, fun h => ?_, fun h => ?_, fun h => ?_⟩
  · by_cases h : w.ext.state = stateRunning
    · simp [Ready, h]
    · simp [Ready, h]
  · rw [Ready_of_ne w h]
  · rw [Ready_of_ne w (by rw [h]; decide), h]
    rfl
  · rw [Ready_of_ne w (by rw [h]; decide), h]
    rfl
  · rw [Ready_of_ne w (by rw [h]; decide), h]
    rfl

/-- Instance of C12 on the sample world before and after `Start`. -/
theorem Ready_NotReady_result_witness :
    (NotReady demoWorld).2 =
      some "alloyengine extension not ready in current state: not_started" ∧
    (Ready (demoRun [.start])).2 = none ∧ (NotReady (demoRun [.start])).2 = none :=
  ⟨(Ready_NotReady_result demoWorld).1 ▸ (Ready_NotReady_result demoWorld).2.2.2.1 rfl,
   (Ready_NotReady_result (demoRun [.start])).2.1.mpr rfl,
   (Ready_NotReady_result (demoRun [.start])).1 ▸
     (Ready_NotReady_result (demoRun [.start])).2.1.mpr rfl⟩

theorem watcherLogEntry_none (prev : state) :
    watcherLogEntry none prev =
      ⟨.debug, "run command exited successfully without error", []⟩ := rfl

theorem watcherLogEntry_shuttingDown (msg : String) :
    watcherLogEntry (some msg) stateShuttingDown =
      ⟨.warn, "run command exited with an error during shutdown", [("error", msg)]⟩ := rfl

theorem watcherLogEntry_running (msg : String) :
    watcherLogEntry (some msg) stateRunning =
      ⟨.error, "run command exited unexpectedly with an error", [("error", msg)]⟩ := rfl

theorem watcherLogEntry_error_level (err : Option String) (prev : state)
    (hprev : prev = stateRunning ∨ prev = stateShuttingDown)
    (h : (watcherLogEntry err prev).level = .error ∨
      (watcherLogEntry err prev).msg = "run command exited unexpectedly with an error") :
    prev = stateRunning ∧ err ≠ none := by
  cases err with
  | none => rcases h with h | h <;> simp [watcherLogEntry] at h
  | some msg =>
    rcases hprev with hp | hp
    · exact ⟨hp, by simp⟩
    · subst hp
      rcases h with h | h <;> simp [watcherLogEntry] at h

theorem step_watcherLog_of_unlocked (w : World) (i : Nat) (cmd : Cmd) (ch : Option Nat)
    (err : Option String) (prev : state)
    (h : w.watchers[i]? = some ⟨cmd, ch, .unlocked err prev⟩) :
    ∃ w1, step w (.watcherLog i) = .ok w1 ∧ w1.logs = w.logs ++ [watcherLogEntry err prev] := by
  simp only [step, h]
  exact ⟨_, rfl, rfl⟩

/-- C13: the log line of the exit watcher.  The value captured as `previousState` is the state
read under the lock.  With a nil error the line is the one for a clean exit whatever
`previousState` is; with an error and `previousState` equal to `stateShuttingDown` it is
the warning for an exit during shutdown; with an error and `previousState` equal to
`stateRunning` it is the error-level line for an unexpected exit.  From a newly constructed
extension, after any sequence of events, a goroutine that has left its critical section holds
`stateRunning` or `stateShuttingDown` as `previousState`, so the error-level line is
written only when `previousState` is `stateRunning`. -/
theorem exit_classification (config : Config) (alloyPath : String) (evs : List Event) :
    (∀ e : alloyEngineExtension, (watcherCritical e).2 = e.state) ∧
    (∀ prev : state, watcherLogEntry none prev =
      ⟨.debug, "run command exited successfully without error", []⟩) ∧
    (∀ msg : String, watcherLogEntry (some msg) stateShuttingDown =
      ⟨.warn, "run command exited with an error during shutdown", [("error", msg)]⟩) ∧
    (∀ msg : String, watcherLogEntry (some msg) stateRunning =
      ⟨.error, "run command exited unexpectedly with an error", [("error", msg)]⟩) ∧
    ∃ w, run (World.new config alloyPath) evs = .ok w ∧
      ∀ (i : Nat) (cmd : Cmd) (ch : Option Nat) (err : Option String) (prev : state),
        w.watchers[i]? = some ⟨cmd, ch, .unlocked err prev⟩ →
        (prev = stateRunning ∨ prev = stateShuttingDown) ∧
        ((watcherLogEntry err prev).level = .error → prev = stateRunning) ∧
        ((watcherLogEntry err prev).msg = "run command exited unexpectedly with an error" →
          prev = stateRunning) ∧
        ∃ w1, step w (.watcherLog i) = .ok w1 ∧
          w1.logs = w.logs ++ [watcherLogEntry err prev] := by
  refine ⟨fun _ => rfl, watcherLogEntry_none, watcherLogEntry_shuttingDown,
    watcherLogEntry_running, ?_⟩
  obtain ⟨w, hr, hi⟩ := run_new_inv config alloyPath evs
  refine ⟨w, hr, fun i cmd ch err prev h => ?_⟩
  have hp : prev = stateRunning ∨ prev = stateShuttingDown := by
    rcases (Inv.unlocked_prev hi i cmd ch err prev h).2 with hp | hp
    · exact Or.inl hp.1
    · exact Or.inr hp.1
  exact ⟨hp, fun hl => (watcherLogEntry_error_level err prev hp (Or.inl hl)).1,
    fun hm => (watcherLogEntry_error_level err prev hp (Or.inr hm)).1,
    step_watcherLog_of_unlocked w i cmd ch err prev h⟩

/-- Instance of C13 on the sample world: the child is killed after `Shutdown`, the goroutine
captured `stateShuttingDown` and writes the warning. -/
theorem exit_classification_witness :
    (demoRun [.start, .shutdown, .runReturns 0 (.waitError "signal: killed"),
      .watcherLock 0]).watchers[0]? =
      some ⟨⟨0, "/usr/bin/alloy",
        ["/usr/bin/alloy", "run", "config.alloy", "--stability.level=experimental"]⟩, some 0,
        .unlocked (some "signal: killed") stateShuttingDown⟩ ∧
    ∃ w1, step (demoRun [.start, .shutdown, .runReturns 0 (.waitError "signal: killed"),
        .watcherLock 0]) (.watcherLog 0) = .ok w1 ∧
      w1.logs.getLast? = some ⟨.warn, "run command exited with an error during shutdown",
        [("error", "signal: killed")]⟩ := by
  obtain ⟨_, _, _, _, w, hr, h⟩ := exit_classification demoConfig "/usr/bin/alloy"
    [.start, .shutdown, .runReturns 0 (.waitError "signal: killed"), .watcherLock 0]
  have hw : w = demoRun [.start, .shutdown, .runReturns 0 (.waitError "signal: killed"),
      .watcherLock 0] := Except.ok.inj (hr.symm.trans rfl)
  subst hw
  obtain ⟨_, _, _, w1, h1, h2⟩ := h 0 _ _ _ _ rfl
  exact ⟨rfl, w1, h1, by rw [h2]; rfl⟩

/-! ## The terminal transition and the completion channel -/

/-- What the critical section of `Shutdown` leaves alone: channels, the `runExited` field and
the goroutines; the state is kept or goes from `stateRunning` to `stateShuttingDown`. -/
theorem ShutdownLocked_frame (w w2 : World) (k : ShutdownCont)
    (h : ShutdownLocked w = .ok (w2, k)) :
    w2.chans = w.chans ∧ w2.ext.runExited = w.ext.runExited ∧ w2.watchers = w.watchers ∧
      (w2.ext.state = w.ext.state ∨
        (w.ext.state = stateRunning ∧ w2.ext.state = stateShuttingDown)) := by
  by_cases hs : w.ext.state = stateRunning
  · cases hc : w.ext.runCancel with
    | none => simp [ShutdownLocked, hs, hc] at h
    | some c =>
      simp only [ShutdownLocked, if_pos hs, hc] at h
      cases h
      exact ⟨rfl, rfl, rfl, Or.inr ⟨hs, rfl⟩⟩
  · obtain ⟨entry, he⟩ := ShutdownLocked_of_ne w hs
    rw [he] at h
    cases h
    exact ⟨rfl, rfl, rfl, Or.inl rfl⟩

/-- A step that changes the lifecycle state to `stateTerminated` is the critical section of a
goroutine whose `cmd.Run()` has returned. -/
theorem step_terminated (w w1 : World) (ev : Event) (hs : w.ext.state ≠ stateTerminated)
    (h : step w ev = .ok w1) (h1 : w1.ext.state = stateTerminated) :
    ∃ i cmd ch err, ev = .watcherLock i ∧ w.watchers[i]? = some ⟨cmd, ch, .returned err⟩ := by
  cases ev with
  | start =>
    simp only [step, Start] at h
    split at h <;> cases h
    · simp [stateRunning, stateTerminated] at h1
    · exact absurd h1 hs
  | shutdown =>
    cases hL : ShutdownLocked w with
    | error p => simp [step, hL] at h
    | ok res =>
      obtain ⟨w2, k⟩ := res
      obtain ⟨_, _, _, hst⟩ := ShutdownLocked_frame w w2 k hL
      have hw : w1.ext.state = w2.ext.state := by
        cases k <;> simp only [step, hL] at h <;> cases h <;> rfl
      rw [hw] at h1
      rcases hst with hst | ⟨_, hst⟩
      · exact absurd (hst ▸ h1) hs
      · rw [hst] at h1
        simp [stateShuttingDown, stateTerminated] at h1
  | shutdownSelect c =>
    simp only [step] at h
    split at h
    · cases c <;> cases h <;> exact absurd h1 hs
    · cases h
      exact absurd h1 hs
  | ready =>
    simp only [step, Ready] at h
    split at h <;> cases h <;> exact absurd h1 hs
  | notReady =>
    simp only [step, NotReady] at h
    split at h <;> cases h <;> exact absurd h1 hs
  | runReturns i r =>
    simp only [step] at h
    split at h <;> cases h <;> exact absurd h1 hs
  | watcherLock i =>
    simp only [step] at h
    split at h
    · rename_i cmd ch err heq
      exact ⟨i, cmd, ch, err, rfl, heq⟩
    · cases h
      exact absurd h1 hs
  | watcherLog i =>
    simp only [step] at h
    split at h <;> cases h <;> exact absurd h1 hs
  | watcherClose i =>
    simp only [step] at h
    split at h
    · split at h
      · cases h
      · cases h
        exact absurd h1 hs
    · cases h
      exact absurd h1 hs

theorem ShutdownLocked_of_running (w : World) (c : Nat) (hs : w.ext.state = stateRunning)
    (hc : w.ext.runCancel = some c) :
    ShutdownLocked w = .ok ({ w with
        ext := { w.ext with state := stateShuttingDown }
        cancels := w.cancels.set c (w.cancels.getD c 0 + 1)
        logs := w.logs ++ [⟨.info, "alloyengine extension shutting down", []⟩] }, .select) := by
  unfold ShutdownLocked
  rw [if_pos hs, hc]

/-- C15: in a world whose state is not `stateTerminated`, none of `Start`, `Ready`, `NotReady`,
the critical section of `Shutdown` and the `select` of `Shutdown` stores `stateTerminated`;
the critical section of `Shutdown` does return when `runCancel` is set.  Among all steps, the
only one that leads to `stateTerminated` is the critical section of a goroutine whose
`cmd.Run()` has returned. -/
theorem terminated_only_by_watcher (w : World) (hs : w.ext.state ≠ stateTerminated) :
    (Start w).1.ext.state ≠ stateTerminated ∧
    (Ready w).1.ext.state ≠ stateTerminated ∧
    (NotReady w).1.ext.state ≠ stateTerminated ∧
    (∀ w1 k, ShutdownLocked w = .ok (w1, k) → w1.ext.state ≠ stateTerminated) ∧
    (w.ext.runCancel ≠ none → ∃ w1 k, ShutdownLocked w = .ok (w1, k)) ∧
    (∀ c, (ShutdownSelect w c).1.ext.state ≠ stateTerminated) ∧
    ∀ ev w1, step w ev = .ok w1 → w1.ext.state = stateTerminated →
      ∃ i cmd ch err, ev = .watcherLock i ∧
        w.watchers[i]? = some ⟨cmd, ch, .returned err⟩ := by
  refine ⟨?_, ?_, ?_, fun w1 k h => ?_, fun hc => ?_, fun c => ?_,
    fun ev w1 h h1 => step_terminated w w1 ev hs h h1⟩
  · by_cases h0 : w.ext.state = stateNotStarted
    · rw [(Start_of_notStarted w h0).2]
      decide
    · rw [Start_of_ne w h0]
      exact hs
  · by_cases h0 : w.ext.state = stateRunning
    · simp only [Ready, if_pos h0]
      exact hs
    · rw [Ready_of_ne w h0]
      exact hs
  · by_cases h0 : w.ext.state = stateRunning
    · simp only [NotReady, if_pos h0]
      exact hs
    · rw [NotReady_of_ne w h0]
      exact hs
  · rcases (ShutdownLocked_frame w w1 k h).2.2.2 with hst | ⟨_, hst⟩
    · rw [hst]
      exact hs
    · rw [hst]
      decide
  · by_cases h0 : w.ext.state = stateRunning
    · cases hc1 : w.ext.runCancel with
      | none => exact absurd hc1 hc
      | some c => exact ⟨_, _, ShutdownLocked_of_running w c h0 hc1⟩
    · obtain ⟨entry, he⟩ := ShutdownLocked_of_ne w h0
      exact ⟨_, _, he⟩
  · cases c <;> exact hs

/-- Instance of C15 on the sample world after `Start` and the return of `cmd.Run()`: the
callers leave the state alone and the goroutine stores `stateTerminated`. -/
theorem terminated_only_by_watcher_witness :
    (demoRun [.start, .runReturns 0 .exit0]).ext.state = stateRunning ∧
    (Start (demoRun [.start, .runReturns 0 .exit0])).1.ext.state ≠ stateTerminated ∧
    (∃ w1 k, ShutdownLocked (demoRun [.start, .runReturns 0 .exit0]) = .ok (w1, k) ∧
      w1.ext.state ≠ stateTerminated) ∧
    ∃ w1, step (demoRun [.start, .runReturns 0 .exit0]) (.watcherLock 0) = .ok w1 ∧
      w1.ext.state = stateTerminated ∧
      ∃ i cmd ch err, Event.watcherLock 0 = .watcherLock i ∧
        (demoRun [.start, .runReturns 0 .exit0]).watchers[i]? =
          some ⟨cmd, ch, .returned err⟩ := by
  have h := terminated_only_by_watcher (demoRun [.start, .runReturns 0 .exit0]) (by decide)
  obtain ⟨w1, k, hk⟩ := h.2.2.2.2.1 (by decide)
  exact ⟨rfl, h.1, ⟨w1, k, hk, h.2.2.2.1 w1 k hk⟩, _, rfl, rfl, h.2.2.2.2.2.2 _ _ rfl rfl⟩

theorem Inv.closed {w : World} (h : Inv w) (ch : Nat) (hc : w.chans[ch]? = some true) :
    w.ext.state = stateTerminated ∧ w.chans = [true] ∧
      ∃ cmd, w.watchers = [⟨cmd, some 0, .done⟩] := by
  cases h with
  | fresh config path logs => simp at hc
  | started config path logs cmd st n b pc waiting hw hpc =>
    rcases ch with _ | ch
    · simp at hc
      subst hc
      cases pc <;> simp only [PcOk] at hpc <;> simp at hpc
      exact ⟨hpc.1, rfl, cmd, rfl⟩
    · simp at hc

theorem Inv.logged_state {w : World} (h : Inv w) (i : Nat) (cmd : Cmd) (ch : Option Nat)
    (hi : w.watchers[i]? = some ⟨cmd, ch, .logged⟩) :
    w.ext.state = stateTerminated ∧ ch = some 0 ∧ w.chans = [false] := by
  cases h with
  | fresh config path logs => simp at hi
  | started config path logs cmd0 st n b pc waiting hw hpc =>
    rcases i with _ | i
    · simp at hi
      obtain ⟨_, hch, hpc1⟩ := hi
      subst hpc1
      simp only [PcOk] at hpc
      obtain ⟨h1, _, h3⟩ := hpc
      subst h3
      exact ⟨h1, hch.symm, rfl⟩
    · simp at hi

/-- C16: from a newly constructed extension, after any sequence of events, a closed channel
implies `stateTerminated`: this holds for the channel in `runExited`, for the readiness of the
receive in the `select` of `Shutdown`, and already when the goroutine is about to run its
deferred `close`, so the write of `stateTerminated` precedes the close. -/
theorem closed_implies_terminated (config : Config) (alloyPath : String) (evs : List Event) :
    ∃ w, run (World.new config alloyPath) evs = .ok w ∧
      (∀ ch, w.ext.runExited = some ch → w.chans[ch]? = some true →
        w.ext.state = stateTerminated) ∧
      (selectReady w .runExited = true → w.ext.state = stateTerminated) ∧
      (∀ (i : Nat) (cmd : Cmd) (ch : Option Nat),
        w.watchers[i]? = some ⟨cmd, ch, .logged⟩ → w.ext.state = stateTerminated) := by
  obtain ⟨w, hr, hi⟩ := run_new_inv config alloyPath evs
  refine ⟨w, hr, fun ch _ hc => (Inv.closed hi ch hc).1, fun hsel => ?_,
    fun i cmd ch h => (Inv.logged_state hi i cmd ch h).1⟩
  cases hi with
  | fresh config path logs => simp [selectReady] at hsel
  | started config path logs cmd st n b pc waiting hw hpc =>
    simp [selectReady] at hsel
    subst hsel
    exact (Inv.closed (Inv.started config path logs cmd st n true pc waiting hw hpc) 0 rfl).1

/-- Instance of C16 on the sample world after the goroutine has run to its end. -/
theorem closed_implies_terminated_witness :
    selectReady (demoRun [.start, .runReturns 0 .exit0, .watcherLock 0, .watcherLog 0,
      .watcherClose 0]) .runExited = true ∧
    (demoRun [.start, .runReturns 0 .exit0, .watcherLock 0, .watcherLog 0,
      .watcherClose 0]).ext.state = stateTerminated := by
  obtain ⟨w, hr, _, h, _⟩ := closed_implies_terminated demoConfig "/usr/bin/alloy"
    [.start, .runReturns 0 .exit0, .watcherLock 0, .watcherLog 0, .watcherClose 0]
  have hw : w = demoRun [.start, .runReturns 0 .exit0, .watcherLock 0, .watcherLog 0,
      .watcherClose 0] := Except.ok.inj (hr.symm.trans rfl)
  subst hw
  exact ⟨rfl, h rfl⟩

/-- C18: `Ready` and `NotReady` return the world they were given: the lifecycle state, the
cancel handle, the completion channel, the configuration and everything else are the same,
and the corresponding steps leave the world as it is. -/
theorem Ready_NotReady_pure (w : World) :
    (Ready w).1 = w ∧ (NotReady w).1 = w ∧
    (Ready w).1.ext.state = w.ext.state ∧ (Ready w).1.ext.runCancel = w.ext.runCancel ∧
    (Ready w).1.ext.runExited = w.ext.runExited ∧ (Ready w).1.chans = w.chans ∧
    (Ready w).1.ext.config = w.ext.config ∧
    (NotReady w).1.ext.state = w.ext.state ∧ (NotReady w).1.ext.runCancel = w.ext.runCancel ∧
    (NotReady w).1.ext.runExited = w.ext.runExited ∧ (NotReady w).1.chans = w.chans ∧
    (NotReady w).1.ext.config = w.ext.config ∧
    step w .ready = .ok w ∧ step w .notReady = .ok w := by
  have h1 : (Ready w).1 = w := by
    unfold Ready
    split <;> rfl
  have h2 : (NotReady w).1 = w := by
    unfold NotReady
    split <;> rfl
  refine ⟨h1, h2, ?_, ?_, ?_, ?_, ?_, ?_, ?_, ?_, ?_, ?_, ?_, ?_⟩ <;>
    simp only [step, h1, h2]

/-- Effect of a step on the channels and on the `runExited` field: nothing, or the creation of
a fresh open channel by a `Start` in `stateNotStarted`, or the deferred `close` of a goroutine
applied to an existing open channel. -/
theorem step_signal (w w1 : World) (ev : Event) (h : step w ev = .ok w1) :
    (w1.chans = w.chans ∧ w1.ext.runExited = w.ext.runExited) ∨
    (ev = .start ∧ w.ext.state = stateNotStarted ∧ (Start w).2 = none ∧
      w1.chans = w.chans ++ [false] ∧ w1.ext.runExited = some w.chans.length) ∨
    (∃ i cmd ch, ev = .watcherClose i ∧ w.watchers[i]? = some ⟨cmd, some ch, .logged⟩ ∧
      w.chans[ch]? = some false ∧ w1.chans = w.chans.set ch true ∧
      w1.ext.runExited = w.ext.runExited) := by
  cases ev with
  | start =>
    by_cases h0 : w.ext.state = stateNotStarted
    · right; left
      simp only [step, Start, if_pos h0] at h
      cases h
      exact ⟨rfl, h0, (Start_of_notStarted w h0).1, rfl, rfl⟩
    · left
      simp only [step, Start_of_ne w h0] at h
      cases h
      exact ⟨rfl, rfl⟩
  | shutdown =>
    left
    cases hL : ShutdownLocked w with
    | error p => simp [step, hL] at h
    | ok res =>
      obtain ⟨w2, k⟩ := res
      obtain ⟨hc, hx, _, _⟩ := ShutdownLocked_frame w w2 k hL
      cases k <;> simp only [step, hL] at h <;> cases h <;> exact ⟨hc, hx⟩
  | shutdownSelect c =>
    left
    simp only [step] at h
    split at h
    · cases c <;> cases h <;> exact ⟨rfl, rfl⟩
    · cases h
      exact ⟨rfl, rfl⟩
  | ready =>
    left
    simp only [step, Ready] at h
    split at h <;> cases h <;> exact ⟨rfl, rfl⟩
  | notReady =>
    left
    simp only [step, NotReady] at h
    split at h <;> cases h <;> exact ⟨rfl, rfl⟩
  | runReturns i r =>
    left
    simp only [step] at h
    split at h <;> cases h <;> exact ⟨rfl, rfl⟩
  | watcherLock i =>
    left
    simp only [step] at h
    split at h <;> cases h <;> exact ⟨rfl, rfl⟩
  | watcherLog i =>
    left
    simp only [step] at h
    split at h <;> cases h <;> exact ⟨rfl, rfl⟩
  | watcherClose i =>
    simp only [step] at h
    split at h
    · rename_i cmd ch heq
      cases ch with
      | none => simp [closeChan] at h
      | some c =>
        cases hc : w.chans[c]? with
        | none => simp [closeChan, hc] at h
        | some b =>
          cases b with
          | true => simp [closeChan, hc] at h
          | false =>
            simp only [closeChan, hc] at h
            cases h
            exact Or.inr (Or.inr ⟨i, cmd, c, rfl, heq, hc, rfl, rfl⟩)
    · cases h
      exact Or.inl ⟨rfl, rfl⟩

theorem Inv.returned_close {w : World} (h : Inv w) (i : Nat) (cmd : Cmd) (ch : Option Nat)
    (err : Option String) (hi : w.watchers[i]? = some ⟨cmd, ch, .returned err⟩) :
    w.chans = [false] ∧
      ∃ w2, run w [.watcherLock i, .watcherLog i, .watcherClose i] = .ok w2 ∧
        w2.chans = [true] := by
  cases h with
  | fresh config path logs => simp at hi
  | started config path logs cmd0 st n b pc waiting hw hpc =>
    rcases i with _ | i
    · simp at hi
      obtain ⟨_, _, hpc1⟩ := hi
      subst hpc1
      simp only [PcOk] at hpc
      obtain ⟨_, hb⟩ := hpc
      subst hb
      exact ⟨rfl, _, rfl, rfl⟩
    · simp at hi

theorem Inv.no_chan_of_notStarted {w : World} (h : Inv w)
    (hs : w.ext.state = stateNotStarted) : w.chans = [] := by
  cases h with
  | fresh config path logs => rfl
  | started config path logs cmd st n b pc waiting hw hpc =>
    exact absurd hs (Inv.state_ne_notStarted hpc)

theorem Inv.closed_count {w : World} (h : Inv w) : w.chans.count true ≤ 1 := by
  cases h with
  | fresh config path logs => simp
  | started config path logs cmd st n b pc waiting hw hpc => cases b <;> simp

/-- C17: from a newly constructed extension, after any sequence of events, any further step
succeeds, so no step closes a nil or an already closed channel.  A step changes the list of
channels or the `runExited` field only as the successful `Start` that makes the channel; a
channel becomes closed only by the deferred `close` of a goroutine, applied to a channel that
exists and is open; a closed channel stays closed, and once it is closed no goroutine is left
that could close again, so at most one channel is ever closed.  Once `cmd.Run()` has returned,
the channel is still open and the three remaining steps of the goroutine close it. -/
theorem completion_signal_once (config : Config) (alloyPath : String) (evs : List Event)
    (ev : Event) :
    ∃ w w1, run (World.new config alloyPath) evs = .ok w ∧ step w ev = .ok w1 ∧
      ((w1.chans.length ≠ w.chans.length ∨ w1.ext.runExited ≠ w.ext.runExited) →
        ev = .start ∧ w.ext.state = stateNotStarted ∧ (Start w).2 = none ∧
        w1.chans = w.chans ++ [false] ∧ w1.ext.runExited = some w.chans.length) ∧
      (∀ ch : Nat, w1.chans[ch]? = some true → w.chans[ch]? ≠ some true →
        ∃ i cmd, ev = .watcherClose i ∧ w.watchers[i]? = some ⟨cmd, some ch, .logged⟩ ∧
          w.chans[ch]? = some false) ∧
      (∀ ch : Nat, w.chans[ch]? = some true →
        w1.chans = w.chans ∧ ∃ cmd, w.watchers = [⟨cmd, some 0, .done⟩]) ∧
      w.chans.count true ≤ 1 ∧
      ∀ (i : Nat) (cmd : Cmd) (ch : Option Nat) (err : Option String),
        w.watchers[i]? = some ⟨cmd, ch, .returned err⟩ →
        w.chans = [false] ∧
        ∃ w2, run w [.watcherLock i, .watcherLog i, .watcherClose i] = .ok w2 ∧
          w2.chans = [true] := by
  obtain ⟨w, hr, hi⟩ := run_new_inv config alloyPath evs
  obtain ⟨w1, hs, hi1, _⟩ := step_inv w ev hi
  have hsig := step_signal w w1 ev hs
  refine ⟨w, w1, hr, hs, fun hch => ?_, fun ch h1 h0 => ?_, fun ch hc => ?_,
    Inv.closed_count hi, fun i cmd ch err h => Inv.returned_close hi i cmd ch err h⟩
  · rcases hsig with ⟨h1, h2⟩ | h | ⟨i, cmd, ch, _, _, _, h4, h5⟩
    · rcases hch with hch | hch
      · exact absurd (by rw [h1]) hch
      · exact absurd h2 hch
    · exact h
    · rcases hch with hch | hch
      · exact absurd (by rw [h4, List.length_set]) hch
      · exact absurd h5 hch
  · rcases hsig with ⟨h2, _⟩ | ⟨_, hst, _, h4, _⟩ | ⟨i, cmd, c, he, hw, hc, h4, _⟩
    · rw [h2] at h1
      exact absurd h1 h0
    · have := Inv.no_chan_of_notStarted hi hst
      rw [h4, this] at h1
      rcases ch with _ | ch <;> simp at h1
    · by_cases hcc : ch = c
      · subst hcc
        exact ⟨i, cmd, he, hw, hc⟩
      · rw [h4, List.getElem?_set_ne (Ne.symm hcc)] at h1
        exact absurd h1 h0
  · obtain ⟨_, hcl, cmd, hwt⟩ := Inv.closed hi ch hc
    refine ⟨?_, cmd, hwt⟩
    rcases hsig with ⟨h2, _⟩ | ⟨_, hst, _, _, _⟩ | ⟨i, cmd1, c, _, hw, _, _, _⟩
    · exact h2
    · have := Inv.no_chan_of_notStarted hi hst
      rw [this] at hcl
      cases hcl
    · rw [hwt] at hw
      rcases i with _ | i <;> simp at hw

/-- Instance of C17 on the sample world: `cmd.Run()` has returned, the channel is open, and
the remaining steps of the goroutine close it. -/
theorem completion_signal_once_witness :
    (demoRun [.start, .runReturns 0 .exit0]).chans = [false] ∧
    ∃ w2, run (demoRun [.start, .runReturns 0 .exit0])
        [.watcherLock 0, .watcherLog 0, .watcherClose 0] = .ok w2 ∧ w2.chans = [true] := by
  obtain ⟨w, _, hr, _, _, _, _, _, h⟩ := completion_signal_once demoConfig "/usr/bin/alloy"
    [.start, .runReturns 0 .exit0] .ready
  have hw : w = demoRun [.start, .runReturns 0 .exit0] := Except.ok.inj (hr.symm.trans rfl)
  subst hw
  exact h 0 _ _ _ rfl

/-! ## The mutex -/

theorem getElem?_lt_of_some {α : Type} (l : List α) (i : Nat) (a : α) (h : l[i]? = some a) :
    i < l.length := by
  by_contra hge
  rw [List.getElem?_eq_none (by omega)] at h
  cases h

theorem getElem?_append_of_some {α : Type} (l l1 : List α) (i : Nat) (a : α)
    (h : l[i]? = some a) : (l ++ l1)[i]? = some a := by
  rw [List.getElem?_append_left (getElem?_lt_of_some l i a h)]
  exact h

theorem getElem?_set_of_some {α : Type} (l : List α) (i : Nat) (a b : α)
    (h : l[i]? = some a) : (l.set i b)[i]? = some b := by
  simp [getElem?_lt_of_some l i a h]

/-- A goroutine whose `cmd.Run()` has returned stays at that point until its own critical
section runs. -/
theorem step_keeps_returned (w w1 : World) (ev : Event) (j : Nat) (cmd : Cmd)
    (ch : Option Nat) (err : Option String) (h : step w ev = .ok w1)
    (hj : w.watchers[j]? = some ⟨cmd, ch, .returned err⟩) (hne : ev ≠ .watcherLock j) :
    w1.watchers[j]? = some ⟨cmd, ch, .returned err⟩ := by
  cases ev with
  | start =>
    by_cases h0 : w.ext.state = stateNotStarted
    · simp only [step, Start, if_pos h0] at h
      cases h
      exact getElem?_append_of_some _ _ _ _ hj
    · simp only [step, Start_of_ne w h0] at h
      cases h
      exact hj
  | shutdown =>
    cases hL : ShutdownLocked w with
    | error p => simp [step, hL] at h
    | ok res =>
      obtain ⟨w2, k⟩ := res
      obtain ⟨_, _, hwt, _⟩ := ShutdownLocked_frame w w2 k hL
      cases k <;> simp only [step, hL] at h <;> cases h <;> simp only [hwt] <;> exact hj
  | shutdownSelect c =>
    simp only [step] at h
    split at h
    · cases c <;> cases h <;> exact hj
    · cases h
      exact hj
  | ready =>
    simp only [step, Ready] at h
    split at h <;> cases h <;> exact hj
  | notReady =>
    simp only [step, NotReady] at h
    split at h <;> cases h <;> exact hj
  | runReturns i r =>
    simp only [step] at h
    split at h
    · rename_i cmd1 ch1 heq
      cases h
      have hij : i ≠ j := by
        intro hij
        subst hij
        rw [heq] at hj
        cases hj
      simp only [List.getElem?_set_ne hij]
      exact hj
    · cases h
      exact hj
  | watcherLock i =>
    have hij : i ≠ j := fun hij => hne (by rw [hij])
    simp only [step] at h
    split at h
    · cases h
      simp only [List.getElem?_set_ne hij]
      exact hj
    · cases h
      exact hj
  | watcherLog i =>
    simp only [step] at h
    split at h
    · rename_i cmd1 ch1 err1 prev1 heq
      cases h
      have hij : i ≠ j := by
        intro hij
        subst hij
        rw [heq] at hj
        cases hj
      simp only [List.getElem?_set_ne hij]
      exact hj
    · cases h
      exact hj
  | watcherClose i =>
    simp only [step] at h
    split at h
    · rename_i cmd1 ch1 heq
      have hij : i ≠ j := by
        intro hij
        subst hij
        rw [heq] at hj
        cases hj
      split at h
      · cases h
      · cases h
        simp only [List.getElem?_set_ne hij]
        exact hj
    · cases h
      exact hj

theorem holderOk_of_free (lw : LockWorld) (h : lw.mutex = none) : HolderOk lw :=
  ⟨fun t hm => absurd (h ▸ hm) (by simp), fun i hm => absurd (h ▸ hm) (by simp)⟩

/-- A step of a goroutine outside its critical section keeps the owner of the mutex inside
its critical section. -/
theorem holderOk_world_step (lw : LockWorld) (w1 : World) (ev : Event) (hh : HolderOk lw)
    (hs : step lw.world ev = .ok w1) (hne : ∀ j, ev ≠ .watcherLock j) :
    HolderOk { lw with world := w1 } := by
  refine ⟨fun t hm => hh.1 t hm, fun i hm => ?_⟩
  obtain ⟨cmd, ch, err, h⟩ := hh.2 i hm
  exact ⟨cmd, ch, err, step_keeps_returned lw.world w1 ev i cmd ch err hs h (hne i)⟩

theorem lstep_inv (lw : LockWorld) (ev : LockEvent) (hi : Inv lw.world) (hh : HolderOk lw) :
    ∃ lw1, lstep lw ev = .ok lw1 ∧ Inv lw1.world ∧ HolderOk lw1 := by
  cases ev with
  | call c =>
    refine ⟨_, rfl, hi, fun t hm => ?_, fun i hm => hh.2 i hm⟩
    obtain ⟨c1, hc1⟩ := hh.1 t hm
    exact ⟨c1, getElem?_append_of_some _ _ _ _ hc1⟩
  | acquire t =>
    simp only [lstep]
    split
    · rename_i c hm ht
      refine ⟨_, rfl, hi, fun t1 hm1 => ?_, fun i hm1 => ?_⟩
      · simp only [Option.some.injEq, Holder.host.injEq] at hm1
        subst hm1
        exact ⟨c, getElem?_set_of_some _ _ _ _ ht⟩
      · simp at hm1
    · exact ⟨lw, rfl, hi, hh⟩
  | critical t =>
    simp only [lstep]
    split
    · rename_i c ht
      split
      · obtain ⟨w1, hs, hi1, _⟩ := step_inv lw.world (criticalEvent c) hi
        rw [hs]
        exact ⟨_, rfl, hi1, holderOk_of_free _ rfl⟩
      · exact ⟨lw, rfl, hi, hh⟩
    · exact ⟨lw, rfl, hi, hh⟩
  | select t c =>
    simp only [lstep]
    split
    · rename_i ht
      split
      · obtain ⟨w1, hs, hi1, _⟩ := step_inv lw.world (.shutdownSelect c) hi
        rw [hs]
        refine ⟨_, rfl, hi1, fun t1 hm => ?_, fun i hm => ?_⟩
        · obtain ⟨c1, hc1⟩ := hh.1 t1 hm
          have hne : t ≠ t1 := by
            intro he
            subst he
            rw [ht] at hc1
            cases hc1
          exact ⟨c1, by simp only [List.getElem?_set_ne hne]; exact hc1⟩
        · obtain ⟨cmd, ch, err, h⟩ := hh.2 i hm
          exact ⟨cmd, ch, err,
            step_keeps_returned lw.world w1 _ i cmd ch err hs h (by simp)⟩
      · exact ⟨lw, rfl, hi, hh⟩
    · exact ⟨lw, rfl, hi, hh⟩
  | runReturns i r =>
    obtain ⟨w1, hs, hi1, _⟩ := step_inv lw.world (.runReturns i r) hi
    simp only [lstep, hs]
    exact ⟨_, rfl, hi1, holderOk_world_step lw w1 _ hh hs (by simp)⟩
  | watcherAcquire i =>
    simp only [lstep]
    split
    · rename_i cmd ch err hm hw
      refine ⟨_, rfl, hi, fun t hm1 => ?_, fun j hm1 => ?_⟩
      · simp at hm1
      · simp only [Option.some.injEq, Holder.watcher.injEq] at hm1
        subst hm1
        exact ⟨cmd, ch, err, hw⟩
    · exact ⟨lw, rfl, hi, hh⟩
  | watcherCritical i =>
    simp only [lstep]
    split
    · obtain ⟨w1, hs, hi1, _⟩ := step_inv lw.world (.watcherLock i) hi
      rw [hs]
      exact ⟨_, rfl, hi1, holderOk_of_free _ rfl⟩
    · exact ⟨lw, rfl, hi, hh⟩
  | watcherLog i =>
    obtain ⟨w1, hs, hi1, _⟩ := step_inv lw.world (.watcherLog i) hi
    simp only [lstep, hs]
    exact ⟨_, rfl, hi1, holderOk_world_step lw w1 _ hh hs (by simp)⟩
  | watcherClose i =>
    obtain ⟨w1, hs, hi1, _⟩ := step_inv lw.world (.watcherClose i) hi
    simp only [lstep, hs]
    exact ⟨_, rfl, hi1, holderOk_world_step lw w1 _ hh hs (by simp)⟩

theorem lrun_inv (evs : List LockEvent) :
    ∀ lw : LockWorld, Inv lw.world → HolderOk lw →
      ∃ lw1, lrun lw evs = .ok lw1 ∧ Inv lw1.world ∧ HolderOk lw1 := by
  induction evs with
  | nil => intro lw hi hh; exact ⟨lw, rfl, hi, hh⟩
  | cons ev evs ih =>
    intro lw hi hh
    obtain ⟨lw1, h1, hi1, hh1⟩ := lstep_inv lw ev hi hh
    obtain ⟨lw2, h2, hi2, hh2⟩ := ih lw1 hi1 hh1
    exact ⟨lw2, by simp only [lrun, h1, h2], hi2, hh2⟩

/-- The owner of the mutex releases it by its next step. -/
theorem release_step (lw : LockWorld) (hi : Inv lw.world) (hh : HolderOk lw) (h : Holder)
    (hm : lw.mutex = some h) :
    ∃ lw1, lstep lw (releaseEvent h) = .ok lw1 ∧ lw1.mutex = none ∧
      ∀ (t : Nat) (c : Call), lw.threads[t]? = some ⟨c, .atLock⟩ →
        lw1.threads[t]? = some ⟨c, .atLock⟩ := by
  cases h with
  | host t =>
    obtain ⟨c, hc⟩ := hh.1 t hm
    obtain ⟨w1, hs, _, _⟩ := step_inv lw.world (criticalEvent c) hi
    refine ⟨{ world := w1, mutex := none,
              threads := lw.threads.set t ⟨c, afterCritical lw.world c⟩ },
      by simp only [releaseEvent, lstep, hc, if_pos hm, hs], rfl, fun t1 c1 h1 => ?_⟩
    have hne : t ≠ t1 := by
      intro he
      subst he
      rw [hc] at h1
      cases h1
    simp only [List.getElem?_set_ne hne]
    exact h1
  | watcher i =>
    obtain ⟨w1, hs, _, _⟩ := step_inv lw.world (.watcherLock i) hi
    exact ⟨{ lw with world := w1, mutex := none },
      by simp only [releaseEvent, lstep, if_pos hm, hs], rfl, fun t1 c1 h1 => h1⟩

theorem acquire_step (lw : LockWorld) (t : Nat) (c : Call) (hm : lw.mutex = none)
    (ht : lw.threads[t]? = some ⟨c, .atLock⟩) :
    ∃ lw1, lstep lw (.acquire t) = .ok lw1 ∧ lw1.mutex = some (.host t) ∧
      lw1.threads[t]? = some ⟨c, .locked⟩ :=
  ⟨{ lw with mutex := some (.host t), threads := lw.threads.set t ⟨c, .locked⟩ },
    by simp only [lstep, hm, ht], rfl, getElem?_set_of_some _ _ _ _ ht⟩

/-- C19: in the model with the mutex, from a newly constructed extension and after any sequence
of steps: a host thread blocked in the `select` of `Shutdown` does not own the mutex (it was
released before the `select`), and a goroutine inside `cmd.Run()` does not own it (it is
acquired only after `cmd.Run()` has returned).  Whoever owns the mutex releases it by its next
step, which is never a blocking one, so a `Ready` call waiting at `Lock()` acquires the mutex
after at most one step of another thread. -/
theorem lock_not_held_while_blocked (config : Config) (alloyPath : String)
    (evs : List LockEvent) :
    ∃ lw, lrun (LockWorld.new config alloyPath) evs = .ok lw ∧
      (∀ (t : Nat) (c : Call), lw.threads[t]? = some ⟨c, .atSelect⟩ →
        lw.mutex ≠ some (.host t)) ∧
      (∀ (i : Nat) (cmd : Cmd) (ch : Option Nat),
        lw.world.watchers[i]? = some ⟨cmd, ch, .running⟩ → lw.mutex ≠ some (.watcher i)) ∧
      (∀ h, lw.mutex = some h →
        ∃ lw1, lstep lw (releaseEvent h) = .ok lw1 ∧ lw1.mutex = none) ∧
      ∀ t : Nat, lw.threads[t]? = some ⟨.ready, .atLock⟩ →
        ∃ pre lw1 lw2, pre.length ≤ 1 ∧ lrun lw pre = .ok lw1 ∧
          lstep lw1 (.acquire t) = .ok lw2 ∧ lw2.mutex = some (.host t) ∧
          lw2.threads[t]? = some ⟨.ready, .locked⟩ := by
  obtain ⟨lw, hr, hi, hh⟩ := lrun_inv evs (LockWorld.new config alloyPath)
    (new_inv config alloyPath) (holderOk_of_free _ rfl)
  refine ⟨lw, hr, fun t c ht hm => ?_, fun i cmd ch hw hm => ?_, fun h hm => ?_,
    fun t ht => ?_⟩
  · obtain ⟨c1, hc1⟩ := hh.1 t hm
    rw [ht] at hc1
    cases hc1
  · obtain ⟨cmd1, ch1, err, h1⟩ := hh.2 i hm
    rw [hw] at h1
    cases h1
  · obtain ⟨lw1, h1, h2, _⟩ := release_step lw hi hh h hm
    exact ⟨lw1, h1, h2⟩
  · cases hm : lw.mutex with
    | none =>
      obtain ⟨lw2, h1, h2, h3⟩ := acquire_step lw t .ready hm ht
      exact ⟨[], lw, lw2, by simp, rfl, h1, h2, h3⟩
    | some h =>
      obtain ⟨lw1, h1, h2, h3⟩ := release_step lw hi hh h hm
      obtain ⟨lw2, h4, h5, h6⟩ := acquire_step lw1 t .ready h2 (h3 t .ready ht)
      exact ⟨[releaseEvent h], lw1, lw2, by simp, by simp only [lrun, h1], h4, h5, h6⟩

/-- Instance of C19 on the sample world: after `Start`, a `Shutdown` caller sits in the
`select` and the child is still running; a `NotReady` call owns the mutex while a `Ready` call
waits at `Lock()`, and the `Ready` call gets the mutex after one step. -/
theorem lock_not_held_while_blocked_witness :
    (demoLockRun [.call .start, .acquire 0, .critical 0, .call .shutdown, .acquire 1,
      .critical 1, .call .ready, .call .notReady, .acquire 3]).threads[1]? =
      some ⟨.shutdown, .atSelect⟩ ∧
    (demoLockRun [.call .start, .acquire 0, .critical 0, .call .shutdown, .acquire 1,
      .critical 1, .call .ready, .call .notReady, .acquire 3]).mutex = some (.host 3) ∧
    ∃ pre lw1 lw2, pre.length ≤ 1 ∧
      lrun (demoLockRun [.call .start, .acquire 0, .critical 0, .call .shutdown, .acquire 1,
        .critical 1, .call .ready, .call .notReady, .acquire 3]) pre = .ok lw1 ∧
      lstep lw1 (.acquire 2) = .ok lw2 ∧ lw2.mutex = some (.host 2) ∧
      lw2.threads[2]? = some ⟨.ready, .locked⟩ := by
  obtain ⟨lw, hr, _, _, _, h⟩ := lock_not_held_while_blocked demoConfig "/usr/bin/alloy"
    [.call .start, .acquire 0, .critical 0, .call .shutdown, .acquire 1, .critical 1,
      .call .ready, .call .notReady, .acquire 3]
  have hw : lw = demoLockRun [.call .start, .acquire 0, .critical 0, .call .shutdown,
      .acquire 1, .critical 1, .call .ready, .call .notReady, .acquire 3] :=
    Except.ok.inj (hr.symm.trans rfl)
  subst hw
  exact ⟨rfl, rfl, h 2 rfl⟩

/-! ## An exit before any `Shutdown` has run its critical section -/

end alloyengine

namespace generator

/-! ## `filterReplaces` -/

theorem HasPrefix_iff (s pre : String) :
    strings.HasPrefix s pre = true ↔ ∃ t : String, s = pre ++ t := by
  unfold strings.HasPrefix
  rw [List.isPrefixOf_iff_prefix]
  constructor
  · rintro ⟨t, ht⟩
    exact ⟨⟨t⟩, String.ext (by simp [← ht])⟩
  · rintro ⟨t, ht⟩
    exact ⟨t.data, by simp [ht]⟩

theorem filterReplaces_loop (replaces : List Replace) :
    ∀ filtered : List Replace,
      filterReplaces.loop filtered replaces = filtered ++ replaces.filter kept := by
  induction replaces with
  | nil => intro filtered; simp [filterReplaces.loop]
  | cons r rest ih =>
    intro filtered
    unfold filterReplaces.loop
    by_cases h1 : (strings.HasPrefix r.To "./" || strings.HasPrefix r.To "../") = true
    · rw [if_pos h1, ih]
      have hk : kept r = false := by
        simp only [Bool.or_eq_true] at h1
        rcases h1 with h | h <;> simp [kept, h]
      simp [List.filter_cons, hk]
    · rw [if_neg h1]
      simp only [Bool.or_eq_true, not_or, Bool.not_eq_true] at h1
      by_cases h2 : r.From = "github.com/grafana/alloy/syntax"
      · rw [if_pos h2, ih]
        have hk : kept r = false := by simp [kept, h2]
        simp [List.filter_cons, hk]
      · rw [if_neg h2, ih]
        have hk : kept r = true := by simp [kept, h1.1, h1.2, h2]
        simp [List.filter_cons, hk]

/-- C20: `filterReplaces` returns the input list filtered by `kept`, that is, exactly the
entries whose `To` does not begin with `./` or `../` and whose `From` is not
`github.com/grafana/alloy/syntax`, unchanged and in their original order. -/
theorem filterReplaces_eq_filter (replaces : List Replace) :
    filterReplaces replaces = replaces.filter kept ∧
    (filterReplaces replaces).Sublist replaces ∧
    ∀ r : Replace, r ∈ filterReplaces replaces ↔
      r ∈ replaces ∧ ¬ (∃ t : String, r.To = "./" ++ t) ∧ ¬ (∃ t : String, r.To = "../" ++ t) ∧
        r.From ≠ "github.com/grafana/alloy/syntax" := by
  have h : filterReplaces replaces = replaces.filter kept := by
    unfold filterReplaces
    rw [filterReplaces_loop]
    rfl
  refine ⟨h, h ▸ List.filter_sublist _, fun r => ?_⟩
  rw [h, List.mem_filter, ← HasPrefix_iff, ← HasPrefix_iff]
  simp [kept, and_assoc]

/-! ## Facts about the library functions -/

theorem indexL_some (sep : List Char) :
    ∀ (l : List Char) (i : Nat), strings.indexL sep l = some i →
      i ≤ l.length ∧ sep <+: l.drop i ∧ ∀ j, j < i → ¬ sep <+: l.drop j := by
  intro l
  induction l with
  | nil =>
    intro i h
    simp only [strings.indexL] at h
    split at h
    · rename_i hs
      cases h
      subst hs
      exact ⟨Nat.le_refl _, List.nil_prefix, fun j hj => absurd hj (Nat.not_lt_zero j)⟩
    · cases h
  | cons c cs ih =>
    intro i h
    simp only [strings.indexL] at h
    split at h
    · rename_i hp
      cases h
      exact ⟨Nat.zero_le _, List.isPrefixOf_iff_prefix.mp hp,
        fun j hj => absurd hj (Nat.not_lt_zero j)⟩
    · rename_i hp
      cases hi : strings.indexL sep cs with
      | none => simp [hi] at h
      | some k =>
        simp only [hi, Option.map_some', Option.some.injEq] at h
        subst h
        obtain ⟨h1, h2, h3⟩ := ih k hi
        refine ⟨by simpa using h1, by simpa using h2, fun j hj => ?_⟩
        rcases j with _ | j
        · intro hpre
          exact hp (List.isPrefixOf_iff_prefix.mpr hpre)
        · simpa using h3 j (by omega)

theorem indexL_none (sep : List Char) :
    ∀ (l : List Char), strings.indexL sep l = none → ∀ j, ¬ sep <+: l.drop j := by
  intro l
  induction l with
  | nil =>
    intro h j
    simp only [strings.indexL] at h
    split at h
    · cases h
    · rename_i hs
      intro hpre
      simp only [List.drop_nil, List.prefix_nil] at hpre
      exact hs hpre
  | cons c cs ih =>
    intro h j
    simp only [strings.indexL] at h
    split at h
    · cases h
    · rename_i hp
      cases hi : strings.indexL sep cs with
      | some k => simp [hi] at h
      | none =>
        rcases j with _ | j
        · intro hpre
          exact hp (List.isPrefixOf_iff_prefix.mpr hpre)
        · simpa using ih hi j

theorem infix_iff_prefix_drop (sep l : List Char) :
    sep <:+: l ↔ ∃ j, sep <+: l.drop j := by
  constructor
  · rintro ⟨a, b, h⟩
    refine ⟨a.length, b, ?_⟩
    rw [← h]
    simp
  · rintro ⟨j, b, h⟩
    refine ⟨l.take j, b, ?_⟩
    rw [List.append_assoc, h, List.take_append_drop]

/-- The characters before the first occurrence of a non-empty `sep` contain no occurrence. -/
theorem not_infix_take_index (sep l : List Char) (i : Nat) (hsep : sep ≠ [])
    (h : strings.indexL sep l = some i) : ¬ sep <:+: l.take i := by
  obtain ⟨_, _, h3⟩ := indexL_some sep l i h
  rintro ⟨a, b, hab⟩
  have hlen : a.length + sep.length + b.length = (l.take i).length := by
    rw [← hab]
    simp only [List.length_append]
  have hpos : 0 < sep.length := List.length_pos.mpr hsep
  have hlt : a.length < i := by
    have := List.length_take_le i l
    omega
  apply h3 a.length hlt
  refine ⟨b ++ l.drop i, ?_⟩
  have hl : l = a ++ sep ++ b ++ l.drop i := by
    rw [hab, List.take_append_drop]
  conv_rhs => rw [hl]
  simp

theorem trimSpace_within (s : String) : (strings.TrimSpace s).data <:+: s.data := by
  unfold strings.TrimSpace
  exact (List.rdropWhile_prefix unicode.IsSpace _).isInfix.trans
    (List.dropWhile_suffix _).isInfix

theorem trimSpace_head (s : String) (c : Char)
    (h : (strings.TrimSpace s).data.head? = some c) : unicode.IsSpace c = false := by
  unfold strings.TrimSpace at h
  simp only at h
  have hpre := List.rdropWhile_prefix unicode.IsSpace (s.data.dropWhile unicode.IsSpace)
  obtain ⟨t, ht⟩ := hpre
  cases hr : List.rdropWhile unicode.IsSpace (s.data.dropWhile unicode.IsSpace) with
  | nil => simp [hr] at h
  | cons a as =>
    rw [hr] at h ht
    simp only [List.head?_cons, Option.some.injEq] at h
    subst h
    have hne : s.data.dropWhile unicode.IsSpace ≠ [] := by
      rw [← ht]
      simp
    have := List.head_dropWhile_not unicode.IsSpace s.data hne
    have hh : (s.data.dropWhile unicode.IsSpace).head hne = a := by
      simp only [← ht]
      rfl
    rw [hh] at this
    simpa using this

theorem trimSpace_getLast (s : String) (c : Char)
    (h : (strings.TrimSpace s).data.getLast? = some c) : unicode.IsSpace c = false := by
  unfold strings.TrimSpace at h
  simp only at h
  have hne : List.rdropWhile unicode.IsSpace (s.data.dropWhile unicode.IsSpace) ≠ [] := by
    intro hnil
    rw [hnil] at h
    cases h
  have := List.rdropWhile_last_not unicode.IsSpace _ hne
  rw [List.getLast?_eq_getLast _ hne] at h
  cases h
  simpa using this

/-! ## `parseReplaceBlock` -/

theorem parseReplaceBlock_loop (lines : List String) :
    ∀ replaces : List Replace,
      parseReplaceBlock.loop replaces lines = replaces ++ lines.filterMap parsedEntry := by
  induction lines with
  | nil => intro replaces; simp [parseReplaceBlock.loop]
  | cons line rest ih =>
    intro replaces
    simp only [parseReplaceBlock.loop, List.filterMap_cons, parsedEntry]
    split
    · rw [ih]
    · split
      · rw [ih]
        simp
      · rw [ih]

theorem index_nonneg_iff (s substr : String) :
    strings.Index s substr ≥ 0 ↔ ∃ i, strings.indexL substr.data s.data = some i := by
  unfold strings.Index
  cases h : strings.indexL substr.data s.data with
  | none => simp
  | some i => simp

/-- The function `cleanComment` cuts at the first `//` and trims. -/
theorem cleanComment_cut (s : String) :
    (¬ "//".data <:+: s.data ∧ cleanComment s = strings.TrimSpace s) ∨
    (∃ p q : List Char, s.data = p ++ "//".data ++ q ∧ ¬ "//".data <:+: p ∧
      (∀ j, j < p.length → ¬ "//".data <+: s.data.drop j) ∧
      cleanComment s = strings.TrimSpace ⟨p⟩) := by
  cases h : strings.indexL "//".data s.data with
  | none =>
    left
    refine ⟨fun hin => ?_, ?_⟩
    · obtain ⟨j, hj⟩ := (infix_iff_prefix_drop _ _).mp hin
      exact indexL_none _ _ h j hj
    · simp [cleanComment, strings.Index, h]
  | some i =>
    right
    obtain ⟨h1, ⟨q, h2⟩, h3⟩ := indexL_some _ _ i h
    refine ⟨s.data.take i, q, ?_, not_infix_take_index _ _ i (by decide) h, ?_, ?_⟩
    · rw [List.append_assoc, h2, List.take_append_drop]
    · intro j hj
      exact h3 j (by
        rw [List.length_take] at hj
        omega)
    · simp [cleanComment, strings.Index, h]

/-- The result of `cleanComment` contains no `//` and neither begins nor ends with white
space. -/
theorem cleanComment_clean (s : String) :
    ¬ "//".data <:+: (cleanComment s).data ∧
    (∀ c, (cleanComment s).data.head? = some c → unicode.IsSpace c = false) ∧
    (∀ c, (cleanComment s).data.getLast? = some c → unicode.IsSpace c = false) := by
  rcases cleanComment_cut s with ⟨h1, h2⟩ | ⟨p, q, _, h2, _, h4⟩
  · rw [h2]
    exact ⟨fun hin => h1 (hin.trans (trimSpace_within s)), trimSpace_head s, trimSpace_getLast s⟩
  · rw [h4]
    exact ⟨fun hin => h2 (hin.trans (trimSpace_within ⟨p⟩)), trimSpace_head _,
      trimSpace_getLast _⟩

/-- C21: `parseReplaceBlock` returns, in input order, what `parsedEntry` yields for each line:
one entry for a line whose trimmed form is non-empty, does not begin with `//` and splits on
`=>` into exactly two parts, nothing for any other line.  `From` and `To` are `cleanComment` of
the two parts, which cuts at the first `//` (when there is one) and trims; so they contain
no `//` and have no white space at either end. -/
theorem parseReplaceBlock_spec (lines : List String) :
    parseReplaceBlock lines = lines.filterMap parsedEntry ∧
    (∀ line : String,
      (strings.TrimSpace line = "" ∨ strings.HasPrefix (strings.TrimSpace line) "//" = true ∨
        (strings.Split (strings.TrimSpace line) "=>").length ≠ 2 → parsedEntry line = none) ∧
      (∀ part0 part1 : String,
        strings.TrimSpace line ≠ "" → strings.HasPrefix (strings.TrimSpace line) "//" = false →
        strings.Split (strings.TrimSpace line) "=>" = [part0, part1] →
        parsedEntry line = some { From := cleanComment part0, To := cleanComment part1 })) ∧
    (∀ s : String,
      (¬ "//".data <:+: s.data ∧ cleanComment s = strings.TrimSpace s) ∨
      (∃ p q : List Char, s.data = p ++ "//".data ++ q ∧ ¬ "//".data <:+: p ∧
        (∀ j, j < p.length → ¬ "//".data <+: s.data.drop j) ∧
        cleanComment s = strings.TrimSpace ⟨p⟩)) ∧
    (∀ r ∈ parseReplaceBlock lines,
      ¬ "//".data <:+: r.From.data ∧ ¬ "//".data <:+: r.To.data ∧
      (∀ c, r.From.data.head? = some c ∨ r.From.data.getLast? = some c ∨
        r.To.data.head? = some c ∨ r.To.data.getLast? = some c → unicode.IsSpace c = false)) := by
  have hA : parseReplaceBlock lines = lines.filterMap parsedEntry := by
    unfold parseReplaceBlock
    rw [parseReplaceBlock_loop]
    rfl
  refine ⟨hA, fun line => ⟨fun h => ?_, fun part0 part1 h1 h2 h3 => ?_⟩, cleanComment_cut,
    fun r hr => ?_⟩
  · simp only [parsedEntry]
    rcases h with h | h | h
    · simp [h]
    · simp [h]
    · split
      · rfl
      · split
        · rename_i a b hab
          rw [hab] at h
          exact absurd rfl h
        · rfl
  · simp only [parsedEntry, h3]
    simp [h1, h2]
  · rw [hA, List.mem_filterMap] at hr
    obtain ⟨line, _, hl⟩ := hr
    simp only [parsedEntry] at hl
    split at hl
    · cases hl
    · split at hl
      · cases hl
        rename_i part0 part1 _
        obtain ⟨f1, f2, f3⟩ := cleanComment_clean part0
        obtain ⟨t1, t2, t3⟩ := cleanComment_clean part1
        refine ⟨f1, t1, fun c hc => ?_⟩
        rcases hc with hc | hc | hc | hc
        · exact f2 c hc
        · exact f3 c hc
        · exact t2 c hc
        · exact t3 c hc
      · cases hl

/-! ## `findGoModReplaceSectionEnd` -/

theorem inner_eq (rest : List String) :
    findGoModReplaceSectionEnd.inner rest =
      match firstNonBlank rest with
      | some x => isTopLevelDirective (strings.TrimSpace x)
      | none => false := by
  induction rest with
  | nil => rfl
  | cons l rest ih =>
    by_cases h : strings.TrimSpace l = ""
    · simp only [findGoModReplaceSectionEnd.inner, h, if_true, firstNonBlank, List.find?_cons,
        ne_eq, not_true_eq_false, decide_False]
      exact ih
    · simp only [findGoModReplaceSectionEnd.inner, h, if_false, firstNonBlank, List.find?_cons,
        ne_eq, not_false_eq_true, decide_True]

/-- The loop started at line `i` on the suffix `l` returns the first position at which the
section ends, or the position after the suffix. -/
theorem loop_spec (l : List String) :
    ∀ i : Nat,
      i ≤ findGoModReplaceSectionEnd.loop i l ∧
      findGoModReplaceSectionEnd.loop i l ≤ i + l.length ∧
      (findGoModReplaceSectionEnd.loop i l < i + l.length →
        sectionEndsAt l (findGoModReplaceSectionEnd.loop i l - i) = true) ∧
      ∀ k, k < findGoModReplaceSectionEnd.loop i l - i → sectionEndsAt l k = false := by
  induction l with
  | nil =>
    intro i
    simp [findGoModReplaceSectionEnd.loop]
  | cons x rest ih =>
    intro i
    obtain ⟨h1, h2, h3, h4⟩ := ih (i + 1)
    have hhere : sectionEndsAt (x :: rest) 0 =
        (isTopLevelDirective (strings.TrimSpace x) ||
          (decide (strings.TrimSpace x = "") && findGoModReplaceSectionEnd.inner rest)) := by
      simp only [sectionEndsAt, List.drop_zero, inner_eq]
    have hnext : ∀ k, sectionEndsAt (x :: rest) (k + 1) = sectionEndsAt rest k := by
      intro k
      simp only [sectionEndsAt, List.drop_succ_cons]
    have hstep : ∀ r, i + 1 ≤ r → r ≤ i + 1 + rest.length →
        (r < i + 1 + rest.length → sectionEndsAt rest (r - (i + 1)) = true) →
        (∀ k, k < r - (i + 1) → sectionEndsAt rest k = false) →
        sectionEndsAt (x :: rest) 0 = false →
        i ≤ r ∧ r ≤ i + (x :: rest).length ∧
          (r < i + (x :: rest).length → sectionEndsAt (x :: rest) (r - i) = true) ∧
          ∀ k, k < r - i → sectionEndsAt (x :: rest) k = false := by
      intro r a1 a2 a3 a4 a5
      refine ⟨by omega, by simp only [List.length_cons]; omega, fun hlt => ?_, fun k hk => ?_⟩
      · have : r - i = (r - (i + 1)) + 1 := by omega
        rw [this, hnext]
        exact a3 (by simp only [List.length_cons] at hlt; omega)
      · rcases k with _ | k
        · exact a5
        · rw [hnext]
          exact a4 k (by omega)
    have hstop : sectionEndsAt (x :: rest) 0 = true →
        i ≤ i ∧ i ≤ i + (x :: rest).length ∧
          (i < i + (x :: rest).length → sectionEndsAt (x :: rest) (i - i) = true) ∧
          ∀ k, k < i - i → sectionEndsAt (x :: rest) k = false := by
      intro hs
      refine ⟨Nat.le_refl _, Nat.le_add_right _ _, fun _ => by simpa using hs, fun k hk => ?_⟩
      omega
    by_cases hb : strings.TrimSpace x = ""
    · have hnt : isTopLevelDirective (strings.TrimSpace x) = false := by
        rw [hb]
        decide
      by_cases hin : findGoModReplaceSectionEnd.inner rest = true
      · have hl : findGoModReplaceSectionEnd.loop i (x :: rest) = i := by
          simp only [findGoModReplaceSectionEnd.loop, hb, if_true, hin]
        rw [hl]
        exact hstop (by rw [hhere]; simp [hb, hin])
      · have hl : findGoModReplaceSectionEnd.loop i (x :: rest) =
            findGoModReplaceSectionEnd.loop (i + 1) rest := by
          simp only [findGoModReplaceSectionEnd.loop, hb, if_true, hin]
          simp
        rw [hl]
        exact hstep _ h1 h2 h3 h4 (by rw [hhere]; simp [hnt, hin])
    · by_cases ht : isTopLevelDirective (strings.TrimSpace x) = true
      · have hl : findGoModReplaceSectionEnd.loop i (x :: rest) = i := by
          simp only [findGoModReplaceSectionEnd.loop, hb, if_false, ht, if_true]
        rw [hl]
        exact hstop (by rw [hhere]; simp [ht])
      · have hl : findGoModReplaceSectionEnd.loop i (x :: rest) =
            findGoModReplaceSectionEnd.loop (i + 1) rest := by
          simp only [findGoModReplaceSectionEnd.loop, hb, if_false, ht]
          simp
        rw [hl]
        exact hstep _ h1 h2 h3 h4 (by rw [hhere]; simp [hb, ht])

theorem sectionEndsAt_drop (lines : List String) (s k : Nat) :
    sectionEndsAt (lines.drop s) k = sectionEndsAt lines (s + k) := by
  simp only [sectionEndsAt, List.drop_drop]

/-- C22: for `startIdx` below the length of `lines`, the result of `findGoModReplaceSectionEnd`
lies above `startIdx` and is at most the length; when it is below the length the section ends
at that line, and it does not end at any line strictly between `startIdx` and the result, so the
result is the smallest such line or the length when there is none.  The slices
`lines[:startIdx+1]` and `lines[endIdx:]` of `updateGoMod` are in range. -/
theorem findGoModReplaceSectionEnd_spec (lines : List String) (startIdx : Nat)
    (h : startIdx < lines.length) :
    startIdx < findGoModReplaceSectionEnd lines startIdx ∧
    findGoModReplaceSectionEnd lines startIdx ≤ lines.length ∧
    (findGoModReplaceSectionEnd lines startIdx < lines.length →
      sectionEndsAt lines (findGoModReplaceSectionEnd lines startIdx) = true) ∧
    (∀ i, startIdx < i → i < findGoModReplaceSectionEnd lines startIdx →
      sectionEndsAt lines i = false) ∧
    ((∀ i, startIdx < i → i < lines.length → sectionEndsAt lines i = false) →
      findGoModReplaceSectionEnd lines startIdx = lines.length) ∧
    startIdx + 1 ≤ lines.length := by
  obtain ⟨h1, h2, h3, h4⟩ := loop_spec (lines.drop (startIdx + 1)) (startIdx + 1)
  have hlen : (lines.drop (startIdx + 1)).length = lines.length - (startIdx + 1) := by simp
  rw [hlen] at h2 h3
  have hr : findGoModReplaceSectionEnd lines startIdx =
      findGoModReplaceSectionEnd.loop (startIdx + 1) (lines.drop (startIdx + 1)) := rfl
  rw [← hr] at h1 h2 h3 h4
  have hP : findGoModReplaceSectionEnd lines startIdx < lines.length →
      sectionEndsAt lines (findGoModReplaceSectionEnd lines startIdx) = true := by
    intro hlt
    have := h3 (by omega)
    rw [sectionEndsAt_drop] at this
    rwa [show startIdx + 1 + (findGoModReplaceSectionEnd lines startIdx - (startIdx + 1)) =
      findGoModReplaceSectionEnd lines startIdx from by omega] at this
  refine ⟨by omega, by omega, hP, fun i hi hlt => ?_, fun hnone => ?_, by omega⟩
  · have := h4 (i - (startIdx + 1)) (by omega)
    rw [sectionEndsAt_drop] at this
    rwa [show startIdx + 1 + (i - (startIdx + 1)) = i from by omega] at this
  · by_contra hne
    have hlt : findGoModReplaceSectionEnd lines startIdx < lines.length := by omega
    have := hnone _ (by omega) hlt
    rw [hP hlt] at this
    cases this

/-- Instance of C22: after the marker at line 0 the section ends at the blank line 2, which is
followed by a `require` directive. -/
theorem findGoModReplaceSectionEnd_spec_witness :
    findGoModReplaceSectionEnd
        ["// Replace directives copied from main go.mod of Alloy", "replace a => b", "",
          "require y"] 0 = 2 ∧
      sectionEndsAt
        ["// Replace directives copied from main go.mod of Alloy", "replace a => b", "",
          "require y"] 2 = true ∧
      sectionEndsAt
        ["// Replace directives copied from main go.mod of Alloy", "replace a => b", "",
          "require y"] 1 = false :=
  have h := findGoModReplaceSectionEnd_spec
    ["// Replace directives copied from main go.mod of Alloy", "replace a => b", "",
      "require y"] 0 (by decide)
  ⟨rfl, h.2.2.1 (by decide), h.2.2.2.1 1 (by decide) (by decide)⟩

/-! ## `strings.Split` and `strings.Join` on newlines -/

theorem splitL_ne_nil (sep : List Char) :
    ∀ (l : List Char) (skip : Nat), strings.splitL sep skip l ≠ [] := by
  intro l
  induction l with
  | nil => intro skip; cases skip <;> simp [strings.splitL]
  | cons c cs ih =>
    intro skip
    cases skip with
    | succ k => simpa [strings.splitL] using ih k
    | zero =>
      simp only [strings.splitL]
      split
      · simp
      · cases h : strings.splitL sep 0 cs with
        | nil => exact absurd h (ih 0)
        | cons a as => simp [List.modifyHead]

theorem splitL_newline (l : List Char) : strings.splitL ['\n'] 0 l = l.splitOn '\n' := by
  induction l with
  | nil => simp [strings.splitL, List.splitOn]
  | cons c cs ih =>
    simp only [strings.splitL, List.splitOn, List.splitOnP_cons, List.length_singleton,
      Nat.sub_self]
    by_cases hc : c = '\n'
    · subst hc
      simp only [List.isPrefixOf, beq_self_eq_true, Bool.and_self, if_true]
      rw [ih]
      rfl
    · have h1 : List.isPrefixOf ['\n'] (c :: cs) = false := by
        simp only [List.isPrefixOf, Bool.and_true, beq_eq_false_iff_ne, ne_eq]
        exact fun h => hc h.symm
      have h2 : (c == '\n') = false := by simpa using hc
      simp only [h1, h2, Bool.false_eq_true, if_false]
      rw [ih]
      rfl

theorem splitL_newline_mem (l : List Char) :
    ∀ p ∈ strings.splitL ['\n'] 0 l, '\n' ∉ p := by
  induction l with
  | nil => simp [strings.splitL]
  | cons c cs ih =>
    simp only [strings.splitL, List.length_singleton, Nat.sub_self]
    by_cases hc : c = '\n'
    · subst hc
      simp only [List.isPrefixOf, beq_self_eq_true, Bool.and_self, if_true]
      intro p hp
      rcases List.mem_cons.mp hp with hp | hp
      · subst hp
        simp
      · exact ih p hp
    · have h1 : List.isPrefixOf ['\n'] (c :: cs) = false := by
        simp only [List.isPrefixOf, Bool.and_true, beq_eq_false_iff_ne, ne_eq]
        exact fun h => hc h.symm
      simp only [h1, Bool.false_eq_true, if_false]
      cases h : strings.splitL ['\n'] 0 cs with
      | nil => exact absurd h (splitL_ne_nil _ _ _)
      | cons a as =>
        rw [h] at ih
        intro p hp
        simp only [List.modifyHead, List.mem_cons] at hp
        rcases hp with hp | hp
        · subst hp
          intro hmem
          rcases List.mem_cons.mp hmem with hm | hm
          · exact hc hm.symm
          · exact ih a (List.mem_cons_self _ _) hm
        · exact ih p (List.mem_cons_of_mem _ hp)

theorem split_newline_mem (data : String) :
    ∀ x ∈ strings.Split data "\n", '\n' ∉ x.data := by
  intro x hx
  simp only [strings.Split, List.mem_map] at hx
  obtain ⟨p, hp, rfl⟩ := hx
  exact splitL_newline_mem data.data p hp

/-- Splitting what was joined with newlines gives the lines back. -/
theorem split_join_newline (xs : List String) (hne : xs ≠ [])
    (hx : ∀ x ∈ xs, '\n' ∉ x.data) :
    strings.Split (strings.Join xs "\n") "\n" = xs := by
  simp only [strings.Split, strings.Join]
  rw [splitL_newline, List.splitOn_intercalate]
  · simp [Function.comp_def]
  · intro l hl
    simp only [List.mem_map] at hl
    obtain ⟨x, hx1, rfl⟩ := hl
    exact hx x hx1
  · simpa using hne

/-! ## `updateGoMod` -/

theorem findLineIndex_loop_none (substr : String) (l : List String) :
    ∀ i : Nat, (∀ y ∈ l, strings.Contains y substr = false) →
      findLineIndex.loop substr i l = -1 := by
  induction l with
  | nil => intro i _; rfl
  | cons x rest ih =>
    intro i h
    simp only [findLineIndex.loop, h x (List.mem_cons_self _ _), Bool.false_eq_true, if_false]
    exact ih (i + 1) (fun y hy => h y (List.mem_cons_of_mem _ hy))

/-- The loop of `findLineIndex` stops at the first line that contains `substr`. -/
theorem findLineIndex_loop_first (substr : String) (pre : List String) (x : String)
    (post : List String) (hpre : ∀ y ∈ pre, strings.Contains y substr = false)
    (hx : strings.Contains x substr = true) :
    ∀ i : Nat, findLineIndex.loop substr i (pre ++ x :: post) = (i + pre.length : Nat) := by
  induction pre with
  | nil =>
    intro i
    simp [findLineIndex.loop, hx]
  | cons y rest ih =>
    intro i
    simp only [List.cons_append, findLineIndex.loop, hpre y (List.mem_cons_self _ _),
      Bool.false_eq_true, if_false, List.append_eq]
    rw [ih (fun z hz => hpre z (List.mem_cons_of_mem _ hz)) (i + 1)]
    simp only [List.length_cons]
    congr 1
    omega

theorem exists_first_containing (substr : String) (l : List String)
    (h : ∃ y ∈ l, strings.Contains y substr = true) :
    ∃ pre x post, l = pre ++ x :: post ∧ (∀ y ∈ pre, strings.Contains y substr = false) ∧
      strings.Contains x substr = true := by
  induction l with
  | nil =>
    obtain ⟨y, hy, _⟩ := h
    cases hy
  | cons a rest ih =>
    by_cases ha : strings.Contains a substr = true
    · exact ⟨[], a, rest, rfl, fun y hy => absurd hy (List.not_mem_nil y), ha⟩
    · have hrest : ∃ y ∈ rest, strings.Contains y substr = true := by
        obtain ⟨y, hy, hc⟩ := h
        rcases List.mem_cons.mp hy with hy | hy
        · subst hy
          exact absurd hc ha
        · exact ⟨y, hy, hc⟩
      obtain ⟨pre, x, post, h1, h2, h3⟩ := ih hrest
      refine ⟨a :: pre, x, post, by rw [h1]; rfl, fun y hy => ?_, h3⟩
      rcases List.mem_cons.mp hy with hy | hy
      · subst hy
        simpa using ha
      · exact h2 y hy

/-- The text of a generated directive. -/
theorem replaceLine_data (r : Replace) :
    ("replace " ++ r.From ++ " => " ++ r.To).data =
      'r' :: 'e' :: 'p' :: ("lace ".data ++ r.From.data ++ " => ".data ++ r.To.data) := by
  simp only [String.data_append]
  rfl

/-- A line that begins with `rep` is neither blank nor a top-level directive. -/
theorem rep_line (s : String) (rest : List Char) (h : s.data = 'r' :: 'e' :: 'p' :: rest) :
    strings.TrimSpace s ≠ "" ∧ isTopLevelDirective (strings.TrimSpace s) = false := by
  have hd : s.data.dropWhile unicode.IsSpace = s.data := by
    rw [h]
    rfl
  have hpre : (strings.TrimSpace s).data <+: s.data := by
    unfold strings.TrimSpace
    simp only [hd]
    exact List.rdropWhile_prefix _ _
  have hne : (strings.TrimSpace s).data ≠ [] := by
    unfold strings.TrimSpace
    simp only [hd, ne_eq, List.rdropWhile_eq_nil_iff, not_forall]
    exact ⟨'r', (by rw [h]; simp), (by decide)⟩
  refine ⟨fun he => hne (by rw [he]), ?_⟩
  have hno : ∀ d : String, d.data.isPrefixOf ('r' :: 'e' :: 'p' :: rest) = false →
      strings.HasPrefix (strings.TrimSpace s) d = false := by
    intro d hdp
    cases hh : strings.HasPrefix (strings.TrimSpace s) d with
    | false => rfl
    | true =>
      unfold strings.HasPrefix at hh
      have h1 := (List.isPrefixOf_iff_prefix.mp hh).trans hpre
      rw [h] at h1
      rw [List.isPrefixOf_iff_prefix.mpr h1] at hdp
      cases hdp
  simp only [isTopLevelDirective, hno "module " rfl, hno "require " rfl, hno "exclude " rfl,
    hno "go " rfl, Bool.or_self]

theorem replaceLine_plain (r : Replace) :
    strings.TrimSpace ("replace " ++ r.From ++ " => " ++ r.To) ≠ "" ∧
      isTopLevelDirective (strings.TrimSpace ("replace " ++ r.From ++ " => " ++ r.To)) =
        false :=
  rep_line _ _ (replaceLine_data r)

theorem replaceLine_no_newline (r : Replace) (h : '\n' ∉ r.From.data ∧ '\n' ∉ r.To.data) :
    '\n' ∉ ("replace " ++ r.From ++ " => " ++ r.To).data := by
  simp only [String.data_append, List.mem_append, not_or]
  exact ⟨⟨⟨by decide, h.1⟩, by decide⟩, h.2⟩

/-- The loop of `findGoModReplaceSectionEnd` passes lines that are neither blank nor
directives and stops where the section ends. -/
theorem loop_pass (R T : List String)
    (hR : ∀ x ∈ R, strings.TrimSpace x ≠ "" ∧
      isTopLevelDirective (strings.TrimSpace x) = false)
    (hT : T = [] ∨ sectionEndsAt T 0 = true) :
    ∀ i : Nat, findGoModReplaceSectionEnd.loop i (R ++ T) = i + R.length := by
  induction R with
  | nil =>
    intro i
    rcases hT with hT | hT
    · subst hT
      rfl
    · cases T with
      | nil => rfl
      | cons t rest =>
        simp only [sectionEndsAt, List.drop_zero, ← inner_eq, Bool.or_eq_true,
          Bool.and_eq_true, decide_eq_true_eq] at hT
        simp only [List.nil_append, findGoModReplaceSectionEnd.loop, List.length_nil,
          Nat.add_zero]
        rcases hT with hT | ⟨h1, h2⟩
        · by_cases hb : strings.TrimSpace t = ""
          · rw [hb] at hT
            exact absurd hT (by decide)
          · simp [hb, hT]
        · simp [h1, h2]
  | cons x rest ih =>
    intro i
    obtain ⟨h1, h2⟩ := hR x (List.mem_cons_self _ _)
    simp only [List.cons_append, findGoModReplaceSectionEnd.loop, h1, if_false, h2,
      Bool.false_eq_true, List.append_eq]
    rw [ih (fun y hy => hR y (List.mem_cons_of_mem _ hy)) (i + 1)]
    simp only [List.length_cons]
    omega

/-- On the rewritten lines the section found after the marker is the blank line and the
directives that were written. -/
theorem loop_rewritten (R T : List String)
    (hR : ∀ x ∈ R, strings.TrimSpace x ≠ "" ∧
      isTopLevelDirective (strings.TrimSpace x) = false)
    (hT : T = [] ∨ sectionEndsAt T 0 = true) (hne : R ≠ [] ∨ T = []) (i : Nat) :
    findGoModReplaceSectionEnd.loop i ("" :: (R ++ T)) = i + 1 + R.length := by
  have hin : findGoModReplaceSectionEnd.inner (R ++ T) = false := by
    cases R with
    | nil =>
      rcases hne with hne | hne
      · exact absurd rfl hne
      · subst hne
        rfl
    | cons x rest =>
      obtain ⟨h1, h2⟩ := hR x (List.mem_cons_self _ _)
      simp only [List.cons_append, findGoModReplaceSectionEnd.inner, h1, if_false, h2]
  have hb : strings.TrimSpace "" = "" := by decide
  simp only [findGoModReplaceSectionEnd.loop, hb, if_true, hin, Bool.false_eq_true, if_false]
  exact loop_pass R T hR hT (i + 1)

theorem drop_past (pre : List String) (x : String) (post : List String) (n : Nat) :
    (pre ++ x :: post).drop (pre.length + 1 + n) = post.drop n := by
  induction pre with
  | nil => simp [Nat.add_comm]
  | cons a rest ih =>
    have : (a :: rest).length + 1 + n = (rest.length + 1 + n) + 1 := by
      simp only [List.length_cons]
      omega
    rw [this, List.cons_append, List.drop_succ_cons, ih]

theorem take_upto (pre : List String) (x : String) (post : List String) :
    (pre ++ x :: post).take (pre.length + 1) = pre ++ [x] := by
  induction pre with
  | nil => simp
  | cons a rest ih =>
    rw [List.cons_append, List.length_cons, List.take_succ_cons, ih]
    rfl

/-- The content written by `updateGoMod` when the first line containing the marker is `x`,
preceded by `pre` and followed by `post`. -/
theorem updateGoMod_eq (goModPath data : String) (replaces : List Replace)
    (pre : List String) (x : String) (post : List String)
    (hl : strings.Split data "\n" = pre ++ x :: post)
    (hpre : ∀ y ∈ pre, strings.Contains y marker = false)
    (hx : strings.Contains x marker = true) :
    updateGoMod goModPath data replaces =
      .ok (strings.Join (pre ++ [x] ++ [""] ++
        replaces.map (fun r => "replace " ++ r.From ++ " => " ++ r.To) ++
        post.drop (findGoModReplaceSectionEnd.loop (pre.length + 1) post - (pre.length + 1)))
        "\n") := by
  have hidx : findLineIndex (strings.Split data "\n") marker = (pre.length : Nat) := by
    unfold findLineIndex
    rw [hl, findLineIndex_loop_first marker pre x post hpre hx 0]
    simp
  have hdrop : (pre ++ x :: post).drop (pre.length + 1) = post := by
    simp
  have hend : findGoModReplaceSectionEnd (pre ++ x :: post) pre.length =
      findGoModReplaceSectionEnd.loop (pre.length + 1) post := by
    unfold findGoModReplaceSectionEnd
    rw [hdrop]
  have hge := (loop_spec post (pre.length + 1)).1
  have hd2 : (pre ++ x :: post).drop (findGoModReplaceSectionEnd.loop (pre.length + 1) post) =
      post.drop (findGoModReplaceSectionEnd.loop (pre.length + 1) post - (pre.length + 1)) := by
    have := drop_past pre x post
      (findGoModReplaceSectionEnd.loop (pre.length + 1) post - (pre.length + 1))
    rwa [show pre.length + 1 +
      (findGoModReplaceSectionEnd.loop (pre.length + 1) post - (pre.length + 1)) =
      findGoModReplaceSectionEnd.loop (pre.length + 1) post from by omega] at this
  have hne : ¬ ((pre.length : Nat) : Int) = -1 := by omega
  simp only [updateGoMod, hidx, hne, if_false, Int.toNat_ofNat]
  rw [hl, hend, hd2, take_upto]

/-- C23 (amended): when the content has a line containing the marker, the entries contain no
newline, and either the list of entries is not empty or the replace section found by
`findGoModReplaceSectionEnd` runs to the end of the file, `updateGoMod` applied to its own
output with the same entries writes that output again. -/
theorem updateGoMod_idempotent (goModPath data : String) (replaces : List Replace)
    (hnl : ∀ r ∈ replaces, '\n' ∉ r.From.data ∧ '\n' ∉ r.To.data)
    (hmark : ∃ line ∈ strings.Split data "\n", strings.Contains line marker = true)
    (hne : replaces ≠ [] ∨
      findGoModReplaceSectionEnd (strings.Split data "\n")
        (findLineIndex (strings.Split data "\n") marker).toNat =
        (strings.Split data "\n").length) :
    ∃ out, updateGoMod goModPath data replaces = .ok out ∧
      updateGoMod goModPath out replaces = .ok out := by
  obtain ⟨pre, x, post, hl, hpre, hx⟩ := exists_first_containing marker _ hmark
  have h1 := updateGoMod_eq goModPath data replaces pre x post hl hpre hx
  obtain ⟨hge, hle, hP, _⟩ := loop_spec post (pre.length + 1)
  generalize hd : findGoModReplaceSectionEnd.loop (pre.length + 1) post - (pre.length + 1) = d
    at h1
  generalize hR : replaces.map (fun r => "replace " ++ r.From ++ " => " ++ r.To) = R at h1
  have hRplain : ∀ y ∈ R, strings.TrimSpace y ≠ "" ∧
      isTopLevelDirective (strings.TrimSpace y) = false := by
    intro y hy
    rw [← hR, List.mem_map] at hy
    obtain ⟨r, _, rfl⟩ := hy
    exact replaceLine_plain r
  have hRnl : ∀ y ∈ R, '\n' ∉ y.data := by
    intro y hy
    rw [← hR, List.mem_map] at hy
    obtain ⟨r, hr, rfl⟩ := hy
    exact replaceLine_no_newline r (hnl r hr)
  have hlines : ∀ y ∈ pre ++ x :: post, '\n' ∉ y.data := by
    intro y hy
    rw [← hl] at hy
    exact split_newline_mem data y hy
  have hT : post.drop d = [] ∨ sectionEndsAt (post.drop d) 0 = true := by
    by_cases hlt : findGoModReplaceSectionEnd.loop (pre.length + 1) post <
        pre.length + 1 + post.length
    · right
      rw [sectionEndsAt_drop, Nat.add_zero, ← hd]
      exact hP hlt
    · left
      apply List.drop_eq_nil_of_le
      omega
  have hne2 : R ≠ [] ∨ post.drop d = [] := by
    rcases hne with hne | hne
    · left
      rw [← hR]
      simpa using hne
    · right
      have hidx : findLineIndex (strings.Split data "\n") marker = (pre.length : Nat) := by
        unfold findLineIndex
        rw [hl, findLineIndex_loop_first marker pre x post hpre hx 0]
        simp
      rw [hidx, hl, Int.toNat_ofNat] at hne
      have hdrop : (pre ++ x :: post).drop (pre.length + 1) = post := by
        simp
      simp only [findGoModReplaceSectionEnd, hdrop, List.length_append, List.length_cons]
        at hne
      apply List.drop_eq_nil_of_le
      omega
  have hsplit : strings.Split (strings.Join (pre ++ [x] ++ [""] ++ R ++ post.drop d) "\n")
      "\n" = pre ++ x :: ("" :: (R ++ post.drop d)) := by
    rw [split_join_newline]
    · simp
    · simp
    · intro y hy
      simp only [List.mem_append, List.mem_singleton] at hy
      rcases hy with (((hy | hy) | hy) | hy) | hy
      · exact hlines y (List.mem_append_left _ hy)
      · subst hy
        exact hlines _ (List.mem_append_right _ (List.mem_cons_self _ _))
      · subst hy
        simp
      · exact hRnl y hy
      · exact hlines y (List.mem_append_right _
          (List.mem_cons_of_mem _ (List.mem_of_mem_drop hy)))
  refine ⟨_, h1, ?_⟩
  rw [updateGoMod_eq goModPath _ replaces pre x ("" :: (R ++ post.drop d)) hsplit hpre hx,
    hR, loop_rewritten R (post.drop d) hRplain hT hne2]
  have : pre.length + 1 + 1 + R.length - (pre.length + 1) = R.length + 1 := by omega
  rw [this, List.drop_succ_cons, List.drop_left]

/-- C23 (as stated, refuted): with the empty list of entries and a `require` directive after the
replace section, the first application writes a blank line in place of the section and the
second application writes one more blank line, so its output differs from its input. -/
theorem updateGoMod_idempotent_counterexample :
    (∃ line ∈ strings.Split
        "module x\n// Replace directives copied from main go.mod of Alloy\nreplace a => b\nrequire y\n"
        "\n", strings.Contains line marker = true) ∧
    updateGoMod "go.mod"
      "module x\n// Replace directives copied from main go.mod of Alloy\nreplace a => b\nrequire y\n"
      [] =
      .ok "module x\n// Replace directives copied from main go.mod of Alloy\n\nrequire y\n" ∧
    updateGoMod "go.mod"
      "module x\n// Replace directives copied from main go.mod of Alloy\n\nrequire y\n" [] =
      .ok "module x\n// Replace directives copied from main go.mod of Alloy\n\n\nrequire y\n" ∧
    ("module x\n// Replace directives copied from main go.mod of Alloy\n\n\nrequire y\n" :
        String) ≠
      "module x\n// Replace directives copied from main go.mod of Alloy\n\nrequire y\n" :=
  ⟨⟨"// Replace directives copied from main go.mod of Alloy", by decide, by decide⟩,
    rfl, rfl, by decide⟩

/-- Instance of C23 (amended) with one entry: the second application returns its input. -/
theorem updateGoMod_idempotent_witness :
    ∃ out, updateGoMod "go.mod"
        "module x\n// Replace directives copied from main go.mod of Alloy\nreplace a => b\nrequire y\n"
        [⟨"a", "c v1"⟩] = .ok out ∧
      updateGoMod "go.mod" out [⟨"a", "c v1"⟩] = .ok out :=
  updateGoMod_idempotent "go.mod"
    "module x\n// Replace directives copied from main go.mod of Alloy\nreplace a => b\nrequire y\n"
    [⟨"a", "c v1"⟩] (by decide)
    ⟨"// Replace directives copied from main go.mod of Alloy", by decide, by decide⟩
    (Or.inl (by decide))

end generator

namespace applyreplaces

open generator

/-! ## `removeBetweenMarkers` -/

end applyreplaces
